import Mathlib

/-!
Verification development for a three-stage batch data pipeline
(`data_preprocessing.py`, `anomaly_detection.py`, `embeddings.py`):
column-level normalization of transaction / KYC tables, an outlier-scoring
stage, and an autoencoder-based customer-embedding stage.

A pandas DataFrame is modelled shallowly as a header (list of column names)
plus a list of rows, each row a list of cell values.  A cell value is
either the missing marker (`NaN`/`NaT`), a string, a rational number,
a datetime, or a boolean.  Library primitives (`pd.to_datetime`,
`pd.to_numeric`, `Series.str.strip` …) are modelled cell-wise with the
source's `errors='coerce'` semantics: an unparseable value becomes the
missing marker.  The date parser recognizes the ISO forms
`YYYY-MM-DD` and `YYYY-MM-DD HH:MM:SS` (the formats the pipeline itself
emits and consumes); exotic input formats accepted by pandas are out of
model scope, as is per-column dtype promotion (cells are typed
individually).  The fitted scikit-learn / Keras models are black boxes to
this repository and enter the model as explicit function or weight
parameters.
-/

/-- A single cell of a DataFrame: missing marker (`NaN`/`NaT`), string,
numeric (rational), datetime (encoded calendar date `y*10000+m*100+d`
plus seconds-of-day), or boolean. -/
inductive Value where
  | null : Value
  | str : String → Value
  | num : Rat → Value
  | dt : Nat → Nat → Value
  | boolv : Bool → Value
deriving DecidableEq

/-- A DataFrame: column names plus rows of cells (row-major). -/
structure Table where
  header : List String
  rows : List (List Value)
deriving DecidableEq

/-- Position of column `c` in a header (first match), `none` if absent. -/
def colIdx (h : List String) (c : String) : Option Nat :=
  h.findIdx? (fun x => x == c)

/-- Cell of a row at position `i`; out-of-range reads give the missing
marker (only exercised on ragged rows, which a real DataFrame never has). -/
def getCell (r : List Value) (i : Nat) : Value :=
  r.getD i Value.null

/-- `df[c] = df[c].map f`: transform one column in place, no-op when the
column is absent. -/
def mapCol (t : Table) (c : String) (f : Value → Value) : Table :=
  match colIdx t.header c with
  | some i => ⟨t.header, t.rows.map (fun r => r.set i (f (getCell r i)))⟩
  | none => t

/-- `df[c] = vs`: overwrite column `c` when present, otherwise append it as
a new last column. -/
def setCol (t : Table) (c : String) (vs : List Value) : Table :=
  match colIdx t.header c with
  | some i => ⟨t.header, List.zipWith (fun r v => r.set i v) t.rows vs⟩
  | none => ⟨t.header ++ [c], List.zipWith (fun r v => r ++ [v]) t.rows vs⟩

/-- The values of column `c`, `[]` if the column is absent. -/
def getColVals (t : Table) (c : String) : List Value :=
  match colIdx t.header c with
  | some i => t.rows.map (fun r => getCell r i)
  | none => []

/-- Rectangularity: every row has exactly one cell per header entry
(true of every DataFrame). -/
def RectB (t : Table) : Bool :=
  t.rows.all (fun r => r.length == t.header.length)

/-- All cells of column `c` satisfy `p` (vacuously true if absent). -/
def colAll (t : Table) (c : String) (p : Value → Bool) : Bool :=
  match colIdx t.header c with
  | some i => t.rows.all (fun r => p (getCell r i))
  | none => true

/-! ### Python string primitives (`str.strip`, `str.lower`, `str.upper`) -/

/-- Whitespace for `str.strip` (ASCII subset). -/
def isSpChar (c : Char) : Bool :=
  c == ' ' || c == '\t' || c == '\n' || c == '\r'

/-- `str.strip`: drop leading and trailing whitespace. -/
def stripStr (s : String) : String :=
  String.mk (((s.data.dropWhile isSpChar).reverse.dropWhile isSpChar).reverse)

/-- The ASCII upper/lower case pairs. -/
def casePairs : List (Char × Char) :=
  [('A', 'a'), ('B', 'b'), ('C', 'c'), ('D', 'd'), ('E', 'e'), ('F', 'f'),
   ('G', 'g'), ('H', 'h'), ('I', 'i'), ('J', 'j'), ('K', 'k'), ('L', 'l'),
   ('M', 'm'), ('N', 'n'), ('O', 'o'), ('P', 'p'), ('Q', 'q'), ('R', 'r'),
   ('S', 's'), ('T', 't'), ('U', 'u'), ('V', 'v'), ('W', 'w'), ('X', 'x'),
   ('Y', 'y'), ('Z', 'z')]

/-- ASCII `str.lower` on one character. -/
def lowerChar (c : Char) : Char :=
  match casePairs.find? (fun p => p.1 == c) with
  | some p => p.2
  | none => c

/-- ASCII `str.upper` on one character. -/
def upperChar (c : Char) : Char :=
  match casePairs.find? (fun p => p.2 == c) with
  | some p => p.1
  | none => c

/-- ASCII `str.lower`. -/
def lowerStr (s : String) : String := String.mk (s.data.map lowerChar)

/-- ASCII `str.upper`. -/
def upperStr (s : String) : String := String.mk (s.data.map upperChar)

/-! ### Library value parsers (`pd.to_datetime` / `pd.to_numeric`, `errors='coerce'`) -/

/-- Numeric value of a decimal digit list, `none` if empty or non-digit. -/
def parseNatDigits (l : List Char) : Option Nat :=
  if l ≠ [] ∧ l.all Char.isDigit then
    some (l.foldl (fun a c => a * 10 + (c.toNat - 48)) 0)
  else none

/-- Parse `YYYY-MM-DD` to the encoding `y*10000+m*100+d`; month/day range
checked (calendar-exact day-of-month validity is simplified to 1..31). -/
def parseDateStr (s : String) : Option Nat :=
  match s.data with
  | [y1, y2, y3, y4, '-', m1, m2, '-', d1, d2] =>
    match parseNatDigits [y1, y2, y3, y4], parseNatDigits [m1, m2],
          parseNatDigits [d1, d2] with
    | some y, some m, some d =>
      if 1 ≤ m ∧ m ≤ 12 ∧ 1 ≤ d ∧ d ≤ 31 then some (y * 10000 + m * 100 + d)
      else none
    | _, _, _ => none
  | _ => none

/-- Parse `HH:MM:SS` to seconds-of-day. -/
def parseTimeStr (s : String) : Option Nat :=
  match s.data with
  | [h1, h2, ':', m1, m2, ':', s1, s2] =>
    match parseNatDigits [h1, h2], parseNatDigits [m1, m2],
          parseNatDigits [s1, s2] with
    | some h, some m, some sec =>
      if h ≤ 23 ∧ m ≤ 59 ∧ sec ≤ 59 then some (h * 3600 + m * 60 + sec)
      else none
    | _, _, _ => none
  | _ => none

/-- Parse a date or a `date time` timestamp (the two forms the pipeline
produces and consumes); a bare date stands for midnight. -/
def parseDateTimeAny (s : String) : Option (Nat × Nat) :=
  match parseDateStr s with
  | some d => some (d, 0)
  | none =>
    let l := s.data
    if l.length = 19 ∧ l.getD 10 ' ' = ' ' then
      match parseDateStr (String.mk (l.take 10)),
            parseTimeStr (String.mk (l.drop 11)) with
      | some d, some sec => some (d, sec)
      | _, _ => none
    else none

/-- Parse a signed decimal numeral (`pd.to_numeric` on a string;
exponent notation is out of model scope). -/
def parseNumStr (s : String) : Option Rat :=
  let (sgn, body) : Rat × List Char :=
    match s.data with
    | '-' :: rest => (-1, rest)
    | '+' :: rest => (1, rest)
    | l => (1, l)
  let ip := body.takeWhile (fun c => c ≠ '.')
  let rest := body.dropWhile (fun c => c ≠ '.')
  match rest with
  | [] =>
    match parseNatDigits ip with
    | some n => some (sgn * (n : Rat))
    | none => none
  | '.' :: fp =>
    if (ip ≠ [] ∨ fp ≠ []) ∧ ip.all Char.isDigit ∧ fp.all Char.isDigit then
      some (sgn * ((ip.foldl (fun a c => a * 10 + (c.toNat - 48)) 0 : Nat) +
        ((fp.foldl (fun a c => a * 10 + (c.toNat - 48)) 0 : Nat) : Rat) /
          ((10 : Rat) ^ fp.length)))
    else none
  | _ => none

/-- Zero-padded fixed-width decimal rendering of `n` (width `k`). -/
def padNum (k n : Nat) : String :=
  String.mk ((List.range k).map (fun j => Nat.digitChar (n / 10 ^ (k - 1 - j) % 10)))

/-- `Series.dt.strftime('%Y-%m-%d')` on the encoded date. -/
def formatDate (d : Nat) : String :=
  padNum 4 (d / 10000) ++ "-" ++ padNum 2 (d / 100 % 100) ++ "-" ++ padNum 2 (d % 100)

/-! ### Cell-level cleaning rules -/

/-- `Series.str.strip()` applied cell-wise: trims string cells, leaves
other cells alone (non-string columns are not object-dtype and are not
selected for stripping in the source). -/
def stripCell (v : Value) : Value :=
  match v with
  | .str s => .str (stripStr s)
  | v => v

/-- `pd.to_datetime(·, errors='coerce')` cell-wise: datetimes pass
through, parseable strings convert, everything else coerces to missing. -/
def toDatetimeCoerce (v : Value) : Value :=
  match v with
  | .str s =>
    match parseDateTimeAny s with
    | some (d, sec) => .dt d sec
    | none => .null
  | .dt d sec => .dt d sec
  | _ => .null

/-- `pd.to_numeric(·, errors='coerce')` cell-wise: numbers pass through,
parseable strings convert, booleans become 0/1, everything else coerces
to missing. -/
def toNumericCoerce (v : Value) : Value :=
  match v with
  | .num q => .num q
  | .str s =>
    match parseNumStr s with
    | some q => .num q
    | none => .null
  | .boolv b => .num (if b then 1 else 0)
  | _ => .null

/-- `Series.str.lower()` cell-wise. -/
def lowerCell (v : Value) : Value :=
  match v with
  | .str s => .str (lowerStr s)
  | v => v

/-- `Series.str.upper()` cell-wise. -/
def upperCell (v : Value) : Value :=
  match v with
  | .str s => .str (upperStr s)
  | v => v

/-- `fillna("00:00:00")` cell-wise. -/
def fillMidnight (v : Value) : Value :=
  if v = Value.null then Value.str "00:00:00" else v

/-- One cell of
`pd.to_datetime(date.dt.strftime('%Y-%m-%d') + ' ' + time, errors='coerce')`:
a missing date (`NaT.strftime` gives `NaN`) or non-string time yields a
missing timestamp. -/
def combineCell (dv tv : Value) : Value :=
  match dv, tv with
  | .dt d _, .str ts =>
    match parseDateTimeAny (formatDate d ++ " " ++ ts) with
    | some (dd, sec) => .dt dd sec
    | none => .null
  | _, _ => .null

/-- `Series.abs()` cell-wise (`abs(NaN) = NaN`). -/
def absCell (v : Value) : Value :=
  match v with
  | .num q => .num |q|
  | v => v

/-- `astype(bool)` cell-wise: Python truthiness — non-empty strings and
non-zero numbers are `True`, the missing marker (`float('nan')`) is
`True`, empty strings and zero are `False`. -/
def boolCoerce (v : Value) : Value :=
  match v with
  | .null => .boolv true
  | .str s => .boolv (decide (s ≠ ""))
  | .num q => .boolv (decide (q ≠ 0))
  | .boolv b => .boolv b
  | .dt _ _ => .boolv true

/-- Worker for duplicate removal: keep a row unless an equal row was
already seen. -/
def dedupFirstAux : List (List Value) → List (List Value) → List (List Value)
  | _, [] => []
  | seen, r :: rs =>
    if r ∈ seen then dedupFirstAux seen rs
    else r :: dedupFirstAux (r :: seen) rs

/-- Keep the first occurrence of each distinct row
(`drop_duplicates`, keep='first'). -/
def dedupFirst (l : List (List Value)) : List (List Value) :=
  dedupFirstAux [] l

/-- Worker for duplicate removal over (index label, row) pairs comparing
row values only. -/
def dedupPairsFirstAux :
    List (List Value) → List (Value × List Value) → List (Value × List Value)
  | _, [] => []
  | seen, p :: ps =>
    if p.2 ∈ seen then dedupPairsFirstAux seen ps
    else p :: dedupPairsFirstAux (p.2 :: seen) ps

/-- `drop_duplicates` over (index label, row) pairs comparing row values
only (pandas ignores the index), keeping first occurrences. -/
def dedupPairsFirst (l : List (Value × List Value)) : List (Value × List Value) :=
  dedupPairsFirstAux [] l

/-! ### Normalizer stages (`data_preprocessing.py`) -/

/-- `df.drop_duplicates(inplace=True)`. -/
def dropDuplicatesT (t : Table) : Table :=
  ⟨t.header, dedupFirst t.rows⟩

/-- Whitespace-strip every (string) cell — the source loops over the
object-dtype columns and applies `Series.str.strip()`. -/
def stripTableT (t : Table) : Table :=
  ⟨t.header, t.rows.map (fun r => r.map stripCell)⟩

/-- `for col in date_cols: df[col] = pd.to_datetime(df[col], errors='coerce')`. -/
def parseDatesT (dateCols : List String) (t : Table) : Table :=
  dateCols.foldl (fun a c => mapCol a c toDatetimeCoerce) t

/-- The `transaction_datetime` synthesis block: when both
`transaction_date` and `transaction_time` exist, fill missing times with
midnight and parse the concatenated date-time strings into a combined
column (overwritten if already present, appended otherwise). -/
def combineDatetimeT (t : Table) : Table :=
  match colIdx t.header "transaction_date", colIdx t.header "transaction_time" with
  | some i, some j =>
    let t1 := mapCol t "transaction_time" fillMidnight
    setCol t1 "transaction_datetime"
      (t1.rows.map (fun r => combineCell (getCell r i) (getCell r j)))
  | _, _ => t

/-- `for col in numeric_cols: df[col] = pd.to_numeric(df[col], errors='coerce')`. -/
def coerceNumericT (numericCols : List String) (t : Table) : Table :=
  numericCols.foldl (fun a c => mapCol a c toNumericCoerce) t

/-- `df['debit_credit'] = df['debit_credit'].str.lower()` when present. -/
def lowerDebitCreditT (t : Table) : Table :=
  mapCol t "debit_credit" lowerCell

/-- Uppercase the geographic columns when present. -/
def upperGeoT (t : Table) : Table :=
  (["country", "province", "city"]).foldl (fun a c => mapCol a c upperCell) t

/-- `df.dropna(subset=[k], inplace=True)`: drop rows whose key cell is
missing; when the key column is absent the raised `KeyError` is caught and
the table is left unchanged. -/
def dropMissingKeyT (k : String) (t : Table) : Table :=
  match colIdx t.header k with
  | some i => ⟨t.header, t.rows.filter (fun r => decide (getCell r i ≠ Value.null))⟩
  | none => t

/-- `clean_transactions(df, date_cols, numeric_cols)`: duplicate removal,
whitespace strip, date parsing, timestamp synthesis, numeric coercion,
debit/credit lowercasing, geographic uppercasing, key-null row drop —
in exactly the source's order. -/
def clean_transactions (df : Table) (dateCols numericCols : List String) : Table :=
  let t1 := dropDuplicatesT df
  let t2 := stripTableT t1
  let t3 := parseDatesT dateCols t2
  let t4 := combineDatetimeT t3
  let t5 := coerceNumericT numericCols t4
  let t6 := lowerDebitCreditT t5
  let t7 := upperGeoT t6
  dropMissingKeyT "customer_id" t7

/-- `clean_bool_columns(df, bool_columns)`: `astype(bool)` on each listed
column that exists. -/
def clean_bool_columns (df : Table) (boolColumns : List String) : Table :=
  boolColumns.foldl (fun a c => mapCol a c boolCoerce) df

/-- `clean_kyc_data(df)`: the input was read with `index_col=0`, so the
customer id lives in the index (`idxName`/`idx` here); `reset_index`
materializes it as the first column, then duplicates are dropped,
whitespace stripped, the two date and two numeric columns coerced, the
geographic/industry columns uppercased, and null-`customer_id` rows
dropped. -/
def clean_kyc_data (idxName : String) (idx : List Value) (df : Table) : Table :=
  let t0 : Table := ⟨idxName :: df.header, List.zipWith (fun v r => v :: r) idx df.rows⟩
  let t1 := dropDuplicatesT t0
  let t2 := stripTableT t1
  let t3 := mapCol (mapCol t2 "established_date" toDatetimeCoerce)
    "onboard_date" toDatetimeCoerce
  let t4 := mapCol (mapCol t3 "sales" toNumericCoerce)
    "employee_count" toNumericCoerce
  let t5 := (["country", "province", "city", "industry_code"]).foldl
    (fun a c => mapCol a c upperCell) t4
  dropMissingKeyT "customer_id" t5

/-- `clean_kyc_industry_codes(df)`: duplicates dropped first (pandas
compares row values only, keeping the first occurrence with its index
label), then `reset_index` materializes the index, the `index` column is
renamed to `industry_code`, and every string cell is stripped and
uppercased. -/
def clean_kyc_industry_codes (idxName : String) (idx : List Value) (df : Table) : Table :=
  let dd := dedupPairsFirst (List.zip idx df.rows)
  let header := (idxName :: df.header).map
    (fun c => if c == "index" then "industry_code" else c)
  ⟨header, dd.map (fun p => (p.1 :: p.2).map (fun v => upperCell (stripCell v)))⟩

/-- The `__main__` card-family post-processing:
`card_data['amount_cad'] = card_data['amount_cad'].abs()` when present. -/
def cardPostProcess (t : Table) : Table :=
  mapCol t "amount_cad" absCell

/-! ### Outlier Scorer (`anomaly_detection.py`) -/

/-- `detect_anomalies(df, contamination, features)`.  The fitted
`IsolationForest(contamination=…, random_state=42).fit_predict` is a
scikit-learn black box, passed in as `fitPredict` (per row: `-1` for
outliers, `1` for inliers).  If no requested feature column exists the
input is returned unchanged; otherwise the predictions are stored as
`anomaly_score` and `is_anomaly` is the comparison of that column
with `-1`.  Python default for `features=None` is `['amount_cad']`. -/
def detect_anomalies (df : Table)
    (fitPredict : List (List Value) → List Int) (features : List String) : Table :=
  let available := features.filter (fun c => decide (c ∈ df.header))
  if available.isEmpty then df
  else
    let X := df.rows.map (fun r => available.map (fun c =>
      match colIdx df.header c with
      | some i => getCell r i
      | none => Value.null))
    let preds := fitPredict X
    let d1 := setCol df "anomaly_score"
      (preds.map (fun (p : Int) => Value.num (p : Rat)))
    setCol d1 "is_anomaly"
      ((getColVals d1 "anomaly_score").map
        (fun v => Value.boolv (decide (v = Value.num (-1)))))

/-- Caller-frame semantics of `clean_transactions`: the function copies
its argument (`df = df.copy()`) before mutating, so the caller's table is
unchanged after the call.  First component: returned table; second: the
caller's table after the call. -/
def clean_transactions_eff (df : Table) (dateCols numericCols : List String) :
    Table × Table :=
  (clean_transactions df dateCols numericCols, df)

/-- Caller-frame semantics of `clean_kyc_data` (also copies first). -/
def clean_kyc_data_eff (idxName : String) (idx : List Value) (df : Table) :
    Table × Table :=
  (clean_kyc_data idxName idx df, df)

/-- Caller-frame semantics of `detect_anomalies`: the source assigns
`df['anomaly_score']`/`df['is_anomaly']` on its argument without copying,
so after the call the caller's table is the mutated (returned) table. -/
def detect_anomalies_eff (df : Table)
    (fitPredict : List (List Value) → List Int) (features : List String) :
    Table × Table :=
  let out := detect_anomalies df fitPredict features
  (out, out)

/-! ### Embedding Generator (`embeddings.py`) -/

/-- `fillna(0)` and numeric extraction of one feature cell. -/
def fillnaZero (v : Value) : Rat :=
  match v with
  | .num q => q
  | _ => 0

/-- Smallest element of a list of rationals (0 for the empty list). -/
def listMin : List Rat → Rat
  | [] => 0
  | x :: xs => xs.foldl min x

/-- Largest element of a list of rationals (0 for the empty list). -/
def listMax : List Rat → Rat
  | [] => 0
  | x :: xs => xs.foldl max x

/-- `preprocess_kyc_data(df, feature_cols)`: select the feature columns,
fill missing values with zero, and min-max normalize each column with the
`1e-6` denominator epsilon. -/
def preprocess_kyc_data (df : Table) (featureCols : List String) : List (List Rat) :=
  let raw : List (List Rat) := df.rows.map (fun r => featureCols.map (fun c =>
    match colIdx df.header c with
    | some i => fillnaZero (getCell r i)
    | none => 0))
  let n := featureCols.length
  let mins := (List.range n).map (fun j => listMin (raw.map (fun row => row.getD j 0)))
  let maxs := (List.range n).map (fun j => listMax (raw.map (fun row => row.getD j 0)))
  raw.map (fun row => (List.range n).map (fun j =>
    (row.getD j 0 - mins.getD j 0) / (maxs.getD j 0 - mins.getD j 0 + 1 / 1000000)))

/-- `relu` activation. -/
def relu (x : Rat) : Rat := max x 0

/-- Dot product of a weight row with an input vector. -/
def dotProd (w x : List Rat) : Rat :=
  (List.zipWith (fun a b => a * b) w x).foldl (fun a b => a + b) 0

/-- One Keras `Dense(units, activation='relu')` layer: one weight row and
bias per output unit. -/
def denseRelu (w : List (List Rat)) (b : List Rat) (x : List Rat) : List Rat :=
  List.zipWith (fun wr bi => relu (dotProd wr x + bi)) w b

/-- The encoder half of `build_autoencoder(input_dim, embedding_dim)`:
`Dense(32, relu)` then `Dense(embedding_dim, relu)`.  The trained weights
are parameters (training is a Keras black box); the architecture fixes
the shapes: `w2`/`b2` have one entry per embedding component. -/
def encoderApply (w1 : List (List Rat)) (b1 : List Rat)
    (w2 : List (List Rat)) (b2 : List Rat) (x : List Rat) : List Rat :=
  denseRelu w2 b2 (denseRelu w1 b1 x)

/-- `round` to the nearest multiple of `1e-8`, scaled to an integer
numerator (the magnitude used by `f"{x:.8f}"`). -/
def scaled8 (q : Rat) : Nat :=
  (Rat.floor (|q| * 100000000 + 1 / 2)).toNat

/-- The 8 fractional-part digit characters of `f"{x:.8f}"`. -/
def fracDigits8 (m : Nat) : List Char :=
  (List.range 8).map (fun k => Nat.digitChar (m / 10 ^ (7 - k) % 10))

/-- `f"{x:.8f}"`: sign, integer part, dot, exactly eight fractional
digits. -/
def format8 (q : Rat) : String :=
  (if q < 0 then "-" else "") ++ Nat.repr (scaled8 q / 100000000) ++ "." ++
    String.mk (fracDigits8 (scaled8 q % 100000000))

/-- `", ".join(...)`. -/
def commaSep : List String → String
  | [] => ""
  | x :: xs => xs.foldl (fun a s => a ++ ", " ++ s) x

/-- `str(...)` of a cell (`astype(str)`). -/
def valueToStr (v : Value) : String :=
  match v with
  | .str s => s
  | .null => "nan"
  | .num q => Int.repr q.num ++ (if q.den = 1 then "" else "/" ++ Nat.repr q.den)
  | .boolv b => if b then "True" else "False"
  | .dt d sec => formatDate d ++ " " ++ padNum 2 (sec / 3600) ++ ":" ++
      padNum 2 (sec / 60 % 60) ++ ":" ++ padNum 2 (sec % 60)

/-- One output line: the customer id, then the embedding components
formatted to 8 decimal places, comma-separated. -/
def embLine (cid : String) (emb : List Rat) : String :=
  cid ++ ", " ++ commaSep (emb.map format8)

/-- `generate_customer_embeddings`: preprocess the KYC features, push
every normalized row through the (trained) encoder, and emit one text
line per customer row pairing `customer_id` with the embedding.  The
written file is modelled as the list of lines. -/
def generate_customer_embeddings (df : Table)
    (w1 : List (List Rat)) (b1 : List Rat) (w2 : List (List Rat)) (b2 : List Rat)
    (featureCols : List String) : List String :=
  let X := preprocess_kyc_data df featureCols
  let embeddings := X.map (encoderApply w1 b1 w2 b2)
  let cids := (getColVals df "customer_id").map valueToStr
  (List.zip cids embeddings).map (fun p => embLine p.1 p.2)

/-! ### Statement predicates and concrete example tables -/

/-- The cell is not the missing marker. -/
def nonNullB (v : Value) : Bool := decide (v ≠ Value.null)

/-- The cell is a non-negative number or missing (what a cleaned,
absolute-valued amount column may contain). -/
def amountOkB (v : Value) : Bool :=
  match v with
  | .null => true
  | .num q => decide (0 ≤ q)
  | _ => false

/-- The cell is a fixed point of the cell transformation `f`. -/
def fixedBy (f : Value → Value) (v : Value) : Bool := decide (f v = v)

/-- Every cell of the table satisfies `p`. -/
def allCells (t : Table) (p : Value → Bool) : Bool :=
  t.rows.all (fun r => r.all p)

/-- Stability of the timestamp-synthesis step: whenever both source
columns exist, the filled time column is a fixed point of the midnight
fill and the stored `transaction_datetime` cells agree with what the
step would recompute. -/
def combineStableB (t : Table) : Bool :=
  match colIdx t.header "transaction_date", colIdx t.header "transaction_time" with
  | some i, some j =>
    match colIdx t.header "transaction_datetime" with
    | some k => t.rows.all (fun r =>
        fixedBy fillMidnight (getCell r j) &&
        decide (getCell r k = combineCell (getCell r i) (getCell r j)))
    | none => false
  | _, _ => true

/-- Two raw rows that differ only in trailing whitespace of the key:
distinct at duplicate-removal time, identical after stripping. -/
def dupTable : Table :=
  ⟨["customer_id"], [[Value.str "a"], [Value.str "a "]]⟩

/-- A small raw transaction table exercising every cleaning rule
(dates, missing and unparseable times/amounts, mixed case, a null key). -/
def rawTxnTable : Table :=
  ⟨["customer_id", "transaction_date", "transaction_time", "amount_cad",
    "debit_credit", "country"],
   [[Value.str "c1", Value.str "2020-01-02", Value.str "03:04:05",
     Value.str " 10.5 ", Value.str "Debit", Value.str "ca"],
    [Value.str "c2", Value.str "2020-01-02", Value.null, Value.str "x",
     Value.str "C", Value.str "us"],
    [Value.null, Value.str "bad", Value.str "03:04:05", Value.str "7",
     Value.null, Value.null]]⟩

/-- A cleaned-shape table for the scoring stage. -/
def anomTable : Table :=
  ⟨["customer_id", "amount_cad"],
   [[Value.str "a", Value.num 5], [Value.str "b", Value.num 500]]⟩

/-- A concrete stand-in for a fitted `fit_predict`: flags every row. -/
def fpNeg1 : List (List Value) → List Int := fun x => x.map (fun _ => -1)

/-- A boolean-indicator table containing the literal string "False",
the empty string, zero, a non-zero number and a missing value. -/
def boolTable : Table :=
  ⟨["ecommerce_ind"],
   [[Value.str "False"], [Value.str ""], [Value.num 0], [Value.num 3],
    [Value.null]]⟩

/-- A one-customer cleaned KYC table for the embedding stage. -/
def kycSmall : Table :=
  ⟨["customer_id", "sales"], [[Value.str "c1", Value.num 3]]⟩

/-- Concrete encoder weights of the architecture's shapes
(32 hidden units, 16 embedding units). -/
def w1Small : List (List Rat) := List.replicate 32 [0]
def b1Small : List Rat := List.replicate 32 0
def w2Small : List (List Rat) := List.replicate 16 (List.replicate 32 0)
def b2Small : List Rat := List.replicate 16 0

/-! ### Basic list and cell lemmas -/

theorem getCell_set_ne {r : List Value} {i j : Nat} (h : j ≠ i) (v : Value) :
    getCell (r.set j v) i = getCell r i := by
  unfold getCell
  rw [List.getD_eq_getElem?_getD, List.getD_eq_getElem?_getD,
    List.getElem?_set_ne h]

theorem getCell_set_self {r : List Value} {i : Nat} (h : i < r.length) (v : Value) :
    getCell (r.set i v) i = v := by
  unfold getCell
  rw [List.getD_eq_getElem?_getD, List.getElem?_set_self h]
  rfl

theorem set_getCell_self (r : List Value) (i : Nat) :
    r.set i (getCell r i) = r := by
  by_cases h : i < r.length
  · apply List.ext_getElem?
    intro n
    by_cases hn : i = n
    · subst hn
      rw [List.getElem?_set_self h, getCell, List.getD_eq_getElem _ _ h,
        List.getElem?_eq_getElem h]
    · rw [List.getElem?_set_ne hn]
  · exact List.set_eq_of_length_le (Nat.le_of_not_lt h)

theorem getCell_map_of_null_fix {f : Value → Value} (hf : f Value.null = Value.null)
    (r : List Value) (i : Nat) : getCell (r.map f) i = f (getCell r i) := by
  by_cases h : i < r.length
  · have h' : i < (r.map f).length := by simpa using h
    rw [getCell, getCell, List.getD_eq_getElem _ _ h', List.getD_eq_getElem _ _ h,
      List.getElem_map]
  · rw [getCell, getCell, List.getD_eq_default, List.getD_eq_default, hf]
    · exact Nat.le_of_not_lt h
    · simpa using Nat.le_of_not_lt h

theorem getCell_out_of_range {r : List Value} {i : Nat} (h : r.length ≤ i) :
    getCell r i = Value.null :=
  List.getD_eq_default _ _ h

theorem map_eq_self_of_all {α : Type} {g : α → α} {l : List α}
    (h : ∀ x ∈ l, g x = x) : l.map g = l := by
  induction l with
  | nil => rfl
  | cons x xs ih =>
    simp only [List.map_cons, h x (List.mem_cons_self x xs),
      ih (fun y hy => h y (List.mem_cons_of_mem x hy))]

theorem mem_zipWith {α β γ : Type} {f : α → β → γ} {l1 : List α} {l2 : List β}
    {x : γ} (h : x ∈ List.zipWith f l1 l2) :
    ∃ a b, a ∈ l1 ∧ b ∈ l2 ∧ x = f a b := by
  induction l1 generalizing l2 with
  | nil => simp at h
  | cons a as ih =>
    cases l2 with
    | nil => simp at h
    | cons b bs =>
      rw [List.zipWith_cons_cons, List.mem_cons] at h
      rcases h with h | h
      · exact ⟨a, b, List.mem_cons_self _ _, List.mem_cons_self _ _, h⟩
      · rcases ih h with ⟨a', b', ha, hb, hx⟩
        exact ⟨a', b', List.mem_cons_of_mem _ ha, List.mem_cons_of_mem _ hb, hx⟩

/-! ### `colIdx` lemmas -/

theorem colIdx_lt_length {h : List String} {c : String} {i : Nat}
    (hc : colIdx h c = some i) : i < h.length := by
  unfold colIdx at hc
  exact (List.findIdx?_eq_some_iff_getElem.mp hc).1

theorem colIdx_getElem {h : List String} {c : String} {i : Nat}
    (hc : colIdx h c = some i) (hl : i < h.length) : h[i] = c := by
  unfold colIdx at hc
  rcases List.findIdx?_eq_some_iff_getElem.mp hc with ⟨_, hp, _⟩
  exact beq_iff_eq.mp hp

theorem colIdx_ne {h : List String} {c c' : String} {i j : Nat}
    (hcc : c ≠ c') (h1 : colIdx h c = some i) (h2 : colIdx h c' = some j) :
    i ≠ j := by
  intro hij
  subst hij
  exact hcc ((colIdx_getElem h1 (colIdx_lt_length h1)).symm.trans
    (colIdx_getElem h2 (colIdx_lt_length h2)))

theorem colIdx_append_left {h l : List String} {c : String} {i : Nat}
    (hc : colIdx h c = some i) : colIdx (h ++ l) c = some i := by
  unfold colIdx at *
  rw [List.findIdx?_append, hc]
  rfl

theorem colIdx_append_self {h : List String} {c : String}
    (hc : colIdx h c = none) : colIdx (h ++ [c]) c = some h.length := by
  unfold colIdx at *
  rw [List.findIdx?_append, hc]
  simp [List.findIdx?_cons]

/-! ### String-primitive lemmas -/

theorem dropWhile_prefix_fix {α : Type} {p : α → Bool} {l l' : List α}
    (hl : List.dropWhile p l = l) (hp : l' <+: l) :
    List.dropWhile p l' = l' := by
  rcases hp with ⟨t, rfl⟩
  cases l' with
  | nil => rfl
  | cons x xs =>
    rw [List.cons_append, List.dropWhile_cons] at hl
    by_cases hx : p x = true
    · rw [if_pos hx] at hl
      have hlen := (List.dropWhile_suffix (l := xs ++ t) p).sublist.length_le
      rw [hl] at hlen
      simp at hlen
    · rw [List.dropWhile_cons, if_neg hx]

theorem trimList_eq_rdrop (l : List Char) :
    ((l.dropWhile isSpChar).reverse.dropWhile isSpChar).reverse =
      List.rdropWhile isSpChar (l.dropWhile isSpChar) := rfl

theorem trimList_idem (l : List Char) :
    (((((l.dropWhile isSpChar).reverse.dropWhile isSpChar).reverse).dropWhile
        isSpChar).reverse.dropWhile isSpChar).reverse =
      ((l.dropWhile isSpChar).reverse.dropWhile isSpChar).reverse := by
  have h1 : List.dropWhile isSpChar
      (List.rdropWhile isSpChar (l.dropWhile isSpChar)) =
      List.rdropWhile isSpChar (l.dropWhile isSpChar) :=
    dropWhile_prefix_fix (List.dropWhile_idempotent _ _)
      (List.rdropWhile_prefix _ _)
  rw [trimList_eq_rdrop, trimList_eq_rdrop l, h1, List.rdropWhile_idempotent]

theorem stripStr_idem (s : String) : stripStr (stripStr s) = stripStr s := by
  unfold stripStr
  exact congrArg String.mk (trimList_idem s.data)

theorem lowerChar_idem (c : Char) : lowerChar (lowerChar c) = lowerChar c := by
  unfold lowerChar
  cases hf : casePairs.find? (fun p => p.1 == c) with
  | none => rw [hf]
  | some p =>
    have hmem := List.mem_of_find?_eq_some hf
    have hnone : ∀ q ∈ casePairs,
        casePairs.find? (fun r => r.1 == q.2) = none := by decide
    rw [hnone p hmem]

theorem upperChar_idem (c : Char) : upperChar (upperChar c) = upperChar c := by
  unfold upperChar
  cases hf : casePairs.find? (fun p => p.2 == c) with
  | none => rw [hf]
  | some p =>
    have hmem := List.mem_of_find?_eq_some hf
    have hnone : ∀ q ∈ casePairs,
        casePairs.find? (fun r => r.2 == q.1) = none := by decide
    rw [hnone p hmem]

theorem isSpChar_lowerChar (c : Char) : isSpChar (lowerChar c) = isSpChar c := by
  unfold lowerChar
  cases hf : casePairs.find? (fun p => p.1 == c) with
  | none => rfl
  | some p =>
    have hmem := List.mem_of_find?_eq_some hf
    have hpc := List.find?_some hf
    have hc : p.1 = c := beq_iff_eq.mp hpc
    have hspAll : ∀ q ∈ casePairs,
        isSpChar q.1 = false ∧ isSpChar q.2 = false := by decide
    have hsp := hspAll p hmem
    rw [hsp.2, ← hc, hsp.1]

theorem isSpChar_upperChar (c : Char) : isSpChar (upperChar c) = isSpChar c := by
  unfold upperChar
  cases hf : casePairs.find? (fun p => p.2 == c) with
  | none => rfl
  | some p =>
    have hmem := List.mem_of_find?_eq_some hf
    have hpc := List.find?_some hf
    have hc : p.2 = c := beq_iff_eq.mp hpc
    have hspAll : ∀ q ∈ casePairs,
        isSpChar q.1 = false ∧ isSpChar q.2 = false := by decide
    have hsp := hspAll p hmem
    rw [hsp.1, ← hc, hsp.2]

theorem lowerStr_idem (s : String) : lowerStr (lowerStr s) = lowerStr s := by
  unfold lowerStr
  refine congrArg String.mk ?_
  show (s.data.map lowerChar).map lowerChar = s.data.map lowerChar
  rw [List.map_map]
  exact List.map_congr_left (fun c _ => lowerChar_idem c)

theorem upperStr_idem (s : String) : upperStr (upperStr s) = upperStr s := by
  unfold upperStr
  refine congrArg String.mk ?_
  show (s.data.map upperChar).map upperChar = s.data.map upperChar
  rw [List.map_map]
  exact List.map_congr_left (fun c _ => upperChar_idem c)

theorem dropWhile_map_sp {g : Char → Char} (hg : ∀ c, isSpChar (g c) = isSpChar c)
    (l : List Char) :
    List.dropWhile isSpChar (l.map g) = (List.dropWhile isSpChar l).map g := by
  rw [List.dropWhile_map]
  have hfun : (isSpChar ∘ g) = isSpChar := funext (fun c => by
    simp only [Function.comp]
    exact hg c)
  rw [hfun]

theorem stripStr_map_comm {g : Char → Char} (hg : ∀ c, isSpChar (g c) = isSpChar c)
    (s : String) :
    stripStr (String.mk (s.data.map g)) =
      String.mk ((((s.data.dropWhile isSpChar).reverse.dropWhile
        isSpChar).reverse).map g) := by
  unfold stripStr
  refine congrArg String.mk ?_
  show ((((s.data.map g).dropWhile isSpChar).reverse).dropWhile isSpChar).reverse =
    ((((s.data.dropWhile isSpChar).reverse).dropWhile isSpChar).reverse).map g
  rw [dropWhile_map_sp hg, ← List.map_reverse, dropWhile_map_sp hg,
    ← List.map_reverse]

/-! ### Cell-transformation lemmas -/

theorem stripCell_idem (v : Value) : stripCell (stripCell v) = stripCell v := by
  cases v <;> simp [stripCell, stripStr_idem]

theorem stripStr_data_fix {s : String} (h : stripStr s = s) :
    ((s.data.dropWhile isSpChar).reverse.dropWhile isSpChar).reverse = s.data := by
  have := congrArg String.data h
  simpa [stripStr] using this

theorem stripCell_fix_lowerCell {v : Value} (h : stripCell v = v) :
    stripCell (lowerCell v) = lowerCell v := by
  cases v with
  | str s =>
    simp only [stripCell, Value.str.injEq] at h
    simp only [lowerCell, stripCell, Value.str.injEq, lowerStr]
    rw [stripStr_map_comm isSpChar_lowerChar, stripStr_data_fix h]
  | _ => simpa [lowerCell] using h

theorem stripCell_fix_upperCell {v : Value} (h : stripCell v = v) :
    stripCell (upperCell v) = upperCell v := by
  cases v with
  | str s =>
    simp only [stripCell, Value.str.injEq] at h
    simp only [upperCell, stripCell, Value.str.injEq, upperStr]
    rw [stripStr_map_comm isSpChar_upperChar, stripStr_data_fix h]
  | _ => simpa [upperCell] using h

theorem stripCell_fix_toDatetime (v : Value) :
    stripCell (toDatetimeCoerce v) = toDatetimeCoerce v := by
  cases v with
  | str s =>
    simp only [toDatetimeCoerce]
    cases parseDateTimeAny s with
    | none => rfl
    | some p => rfl
  | _ => rfl

theorem stripCell_fix_toNumeric (v : Value) :
    stripCell (toNumericCoerce v) = toNumericCoerce v := by
  cases v with
  | str s =>
    simp only [toNumericCoerce]
    cases parseNumStr s with
    | none => rfl
    | some q => rfl
  | _ => rfl

theorem stripCell_fix_fillMidnight {v : Value} (h : stripCell v = v) :
    stripCell (fillMidnight v) = fillMidnight v := by
  by_cases hv : v = Value.null
  · subst hv
    decide
  · rw [fillMidnight, if_neg hv, h]

theorem stripCell_fix_combineCell (dv tv : Value) :
    stripCell (combineCell dv tv) = combineCell dv tv := by
  cases dv with
  | dt d sec =>
    cases tv with
    | str ts =>
      simp only [combineCell]
      cases parseDateTimeAny (formatDate d ++ " " ++ ts) with
      | none => rfl
      | some p => rfl
    | _ => rfl
  | _ => cases tv <;> rfl

theorem toDatetimeCoerce_idem (v : Value) :
    toDatetimeCoerce (toDatetimeCoerce v) = toDatetimeCoerce v := by
  cases v with
  | str s =>
    simp only [toDatetimeCoerce]
    cases parseDateTimeAny s with
    | none => rfl
    | some p => rfl
  | _ => rfl

theorem toNumericCoerce_idem (v : Value) :
    toNumericCoerce (toNumericCoerce v) = toNumericCoerce v := by
  cases v with
  | str s =>
    simp only [toNumericCoerce]
    cases parseNumStr s with
    | none => rfl
    | some q => rfl
  | _ => rfl

theorem lowerCell_idem (v : Value) : lowerCell (lowerCell v) = lowerCell v := by
  cases v <;> simp [lowerCell, lowerStr_idem]

theorem upperCell_idem (v : Value) : upperCell (upperCell v) = upperCell v := by
  cases v <;> simp [upperCell, upperStr_idem]

theorem fillMidnight_nonNull (v : Value) : fillMidnight v ≠ Value.null := by
  by_cases hv : v = Value.null
  · subst hv
    decide
  · rw [fillMidnight, if_neg hv]
    exact hv

theorem fillMidnight_of_nonNull {v : Value} (h : v ≠ Value.null) :
    fillMidnight v = v := by
  rw [fillMidnight, if_neg h]

theorem fixedBy_iff {f : Value → Value} {v : Value} :
    fixedBy f v = true ↔ f v = v := by
  simp [fixedBy]

/-! ### Table-operation lemmas: headers and lengths -/

theorem mapCol_header (t : Table) (c : String) (f : Value → Value) :
    (mapCol t c f).header = t.header := by
  unfold mapCol
  cases colIdx t.header c <;> rfl

theorem mapCol_rows_length (t : Table) (c : String) (f : Value → Value) :
    (mapCol t c f).rows.length = t.rows.length := by
  unfold mapCol
  cases colIdx t.header c <;> simp

theorem foldl_mapCol_header (cs : List String) (f : Value → Value) (t : Table) :
    (cs.foldl (fun a c => mapCol a c f) t).header = t.header := by
  induction cs generalizing t with
  | nil => rfl
  | cons c cs ih => rw [List.foldl_cons, ih, mapCol_header]

theorem foldl_mapCol_rows_length (cs : List String) (f : Value → Value) (t : Table) :
    (cs.foldl (fun a c => mapCol a c f) t).rows.length = t.rows.length := by
  induction cs generalizing t with
  | nil => rfl
  | cons c cs ih => rw [List.foldl_cons, ih, mapCol_rows_length]

theorem stripTableT_header (t : Table) : (stripTableT t).header = t.header := rfl

theorem stripTableT_rows_length (t : Table) :
    (stripTableT t).rows.length = t.rows.length := by
  simp [stripTableT]

theorem parseDatesT_header (dc : List String) (t : Table) :
    (parseDatesT dc t).header = t.header := foldl_mapCol_header dc _ t

theorem coerceNumericT_header (nc : List String) (t : Table) :
    (coerceNumericT nc t).header = t.header := foldl_mapCol_header nc _ t

theorem upperGeoT_header (t : Table) : (upperGeoT t).header = t.header :=
  foldl_mapCol_header _ _ t

theorem lowerDebitCreditT_header (t : Table) :
    (lowerDebitCreditT t).header = t.header := mapCol_header t _ _

theorem dropMissingKeyT_header (k : String) (t : Table) :
    (dropMissingKeyT k t).header = t.header := by
  unfold dropMissingKeyT
  cases colIdx t.header k <;> rfl

theorem dropDuplicatesT_header (t : Table) :
    (dropDuplicatesT t).header = t.header := rfl

theorem setCol_header_of_some {t
 : Table} {c : String} {i : Nat}
    (h : colIdx t.header c = some i) (vs : List Value) :
    (setCol t c vs).header = t.header := by
  unfold setCol
  rw [h]

theorem setCol_header_of_none {t : Table} {c : String}
    (h : colIdx t.header c = none) (vs : List Value) :
    (setCol t c vs).header = t.header ++ [c] := by
  unfold setCol
  rw [h]

theorem combineDatetimeT_header (t : Table) :
    (combineDatetimeT t).header = t.header ∨
      (combineDatetimeT t).header = t.header ++ ["transaction_datetime"] := by
  unfold combineDatetimeT
  cases hi : colIdx t.header "transaction_date" with
  | none => exact Or.inl rfl
  | some i =>
    cases hj : colIdx t.header "transaction_time" with
    | none => exact Or.inl rfl
    | some j =>
      simp only
      cases hk : colIdx (mapCol t "transaction_time" fillMidnight).header
          "transaction_datetime" with
      | some k =>
        rw [setCol_header_of_some hk, mapCol_header]
        exact Or.inl rfl
      | none =>
        rw [setCol_header_of_none hk, mapCol_header]
        exact Or.inr rfl

/-! ### `dedupFirst` lemmas -/

theorem dedupFirstAux_sublist (seen : List (List Value)) :
    ∀ l : List (List Value), (dedupFirstAux seen l).Sublist l := by
  intro l
  induction l generalizing seen with
  | nil => exact List.Sublist.refl _
  | cons r rs ih =>
    rw [dedupFirstAux]
    by_cases hr : r ∈ seen
    · rw [if_pos hr]
      exact (ih seen).cons r
    · rw [if_neg hr]
      exact (ih (r :: seen)).cons₂ r

theorem dedupFirst_sublist (l : List (List Value)) : (dedupFirst l).Sublist l :=
  dedupFirstAux_sublist [] l

theorem dedupFirstAux_nodup (seen : List (List Value)) (l : List (List Value)) :
    (dedupFirstAux seen l).Nodup ∧ ∀ x ∈ dedupFirstAux seen l, x ∉ seen := by
  induction l generalizing seen with
  | nil =>
    rw [dedupFirstAux]
    exact ⟨List.nodup_nil, by simp⟩
  | cons r rs ih =>
    rw [dedupFirstAux]
    by_cases hr : r ∈ seen
    · rw [if_pos hr]
      exact ih seen
    · rw [if_neg hr]
      rcases ih (r :: seen) with ⟨hnd, hnot⟩
      constructor
      · refine List.nodup_cons.mpr ⟨?_, hnd⟩
        intro hmem
        exact hnot r hmem (List.mem_cons_self r seen)
      · intro x hx
        rcases List.mem_cons.mp hx with rfl | hx'
        · exact hr
        · intro hxs
          exact hnot x hx' (List.mem_cons_of_mem r hxs)

theorem dedupFirst_nodup (l : List (List Value)) : (dedupFirst l).Nodup :=
  (dedupFirstAux_nodup [] l).1

theorem dedupFirstAux_of_nodup {l : List (List Value)} (h : l.Nodup)
    {seen : List (List Value)} (hdisj : ∀ x ∈ l, x ∉ seen) :
    dedupFirstAux seen l = l := by
  induction l generalizing seen with
  | nil => rw [dedupFirstAux]
  | cons r rs ih =>
    rw [dedupFirstAux]
    rcases List.nodup_cons.mp h with ⟨hr, hrs⟩
    rw [if_neg (hdisj r (List.mem_cons_self r rs))]
    congr 1
    refine ih hrs ?_
    intro x hx
    intro hxs
    rcases List.mem_cons.mp hxs with rfl | hxseen
    · exact hr hx
    · exact hdisj x (List.mem_cons_of_mem r hx) hxseen

theorem dedupFirst_of_nodup {l : List (List Value)} (h : l.Nodup) :
    dedupFirst l = l :=
  dedupFirstAux_of_nodup h (by simp)

/-! ### `colAll` transfer lemmas -/

theorem colAll_of_forall {t : Table} {c : String} {p : Value → Bool}
    (h : ∀ r ∈ t.rows, ∀ i, colIdx t.header c = some i → p (getCell r i) = true) :
    colAll t c p = true := by
  unfold colAll
  cases hc : colIdx t.header c with
  | none => rfl
  | some i =>
    rw [List.all_eq_true]
    exact fun r hr => h r hr i hc

theorem colAll_get {t : Table} {c : String} {p : Value → Bool}
    (h : colAll t c p = true) {i : Nat} (hc : colIdx t.header c = some i) :
    ∀ r ∈ t.rows, p (getCell r i) = true := by
  unfold colAll at h
  rw [hc, List.all_eq_true] at h
  exact h

theorem colAll_mapCol_other {t : Table} {c c' : String} {p : Value → Bool}
    {f : Value → Value} (hne : c' ≠ c) (h : colAll t c p = true) :
    colAll (mapCol t c' f) c p = true := by
  unfold mapCol
  cases hc' : colIdx t.header c' with
  | none => exact h
  | some j =>
    refine colAll_of_forall ?_
    intro r hr i hc
    simp only at hc hr
    rcases List.mem_map.mp hr with ⟨r0, hr0, rfl⟩
    have hij : j ≠ i := colIdx_ne hne hc' hc
    rw [getCell_set_ne hij]
    exact colAll_get h hc r0 hr0

theorem colAll_mapCol_self {t : Table} {c : String} {p : Value → Bool}
    {f : Value → Value} (hall : ∀ v, p (f v) = true)
    (hnull : p Value.null = true) :
    colAll (mapCol t c f) c p = true := by
  unfold mapCol
  cases hc : colIdx t.header c with
  | none =>
    unfold colAll
    rw [hc]
  | some i =>
    refine colAll_of_forall ?_
    intro r hr i' hc'
    simp only at hc' hr
    rw [hc] at hc'
    injection hc' with hii
    subst hii
    rcases List.mem_map.mp hr with ⟨r0, hr0, rfl⟩
    by_cases hlen : i < r0.length
    · rw [getCell_set_self hlen]
      exact hall _
    · rw [List.set_eq_of_length_le (Nat.le_of_not_lt hlen),
        getCell_out_of_range (Nat.le_of_not_lt hlen)]
      exact hnull

theorem colAll_mapCol_trans {t : Table} {c : String} {p p' : Value → Bool}
    {f : Value → Value} (h : colAll t c p = true)
    (himp : ∀ v, p v = true → p' (f v) = true)
    (hnull : p' Value.null = true) :
    colAll (mapCol t c f) c p' = true := by
  unfold mapCol
  cases hc : colIdx t.header c with
  | none =>
    unfold colAll
    rw [hc]
  | some i =>
    refine colAll_of_forall ?_
    intro r hr i' hc'
    simp only at hc' hr
    rw [hc] at hc'
    injection hc' with hii
    subst hii
    rcases List.mem_map.mp hr with ⟨r0, hr0, rfl⟩
    by_cases hlen : i < r0.length
    · rw [getCell_set_self hlen]
      exact himp _ (colAll_get h hc r0 hr0)
    · rw [List.set_eq_of_length_le (Nat.le_of_not_lt hlen),
        getCell_out_of_range (Nat.le_of_not_lt hlen)]
      exact hnull

theorem colAll_dropDuplicatesT {t : Table} {c : String} {p : Value → Bool}
    (h : colAll t c p = true) : colAll (dropDuplicatesT t) c p = true := by
  refine colAll_of_forall ?_
  intro r hr i hc
  have hc' : colIdx t.header c = some i := hc
  have hrmem : r ∈ t.rows := (dedupFirst_sublist t.rows).mem hr
  exact colAll_get h hc' r hrmem

theorem colAll_dropMissingKeyT {t : Table} {k c : String} {p : Value → Bool}
    (h : colAll t c p = true) : colAll (dropMissingKeyT k t) c p = true := by
  unfold dropMissingKeyT
  cases hk : colIdx t.header k with
  | none => exact h
  | some j =>
    refine colAll_of_forall ?_
    intro r hr i hc
    simp only at hc hr
    exact colAll_get h hc r (List.mem_filter.mp hr).1

theorem colAll_dropMissingKeyT_self (t : Table) (k : String) :
    colAll (dropMissingKeyT k t) k nonNullB = true := by
  unfold dropMissingKeyT
  cases hk : colIdx t.header k with
  | none =>
    unfold colAll
    rw [hk]
  | some j =>
    refine colAll_of_forall ?_
    intro r hr i hc
    simp only at hc hr
    rw [hk] at hc
    injection hc with hji
    subst hji
    have := (List.mem_filter.mp hr).2
    simpa [nonNullB] using this

theorem colAll_stripTableT {t : Table} {c : String} {p : Value → Bool}
    (h : colAll t c p = true)
    (himp : ∀ v, p v = true → p (stripCell v) = true) :
    colAll (stripTableT t) c p = true := by
  refine colAll_of_forall ?_
  intro r hr i hc
  have hc' : colIdx t.header c = some i := hc
  simp only [stripTableT] at hr
  rcases List.mem_map.mp hr with ⟨r0, hr0, rfl⟩
  rw [getCell_map_of_null_fix rfl]
  exact himp _ (colAll_get h hc' r0 hr0)

/-! ### `RectB` preservation -/

theorem rectB_iff {t : Table} :
    RectB t = true ↔ ∀ r ∈ t.rows, r.length = t.header.length := by
  unfold RectB
  rw [List.all_eq_true]
  simp

theorem rectB_mapCol {t : Table} {c : String} {f : Value → Value}
    (h : RectB t = true) : RectB (mapCol t c f) = true := by
  unfold mapCol
  cases hc : colIdx t.header c with
  | none => exact h
  | some i =>
    rw [rectB_iff]
    intro r hr
    simp only at hr ⊢
    rcases List.mem_map.mp hr with ⟨r0, hr0, rfl⟩
    rw [List.length_set]
    exact rectB_iff.mp h r0 hr0

theorem rectB_foldl_mapCol {cs : List String} {f : Value → Value} {t : Table}
    (h : RectB t = true) :
    RectB (cs.foldl (fun a c => mapCol a c f) t) = true := by
  induction cs generalizing t with
  | nil => exact h
  | cons c cs ih => exact ih (rectB_mapCol h)

theorem rectB_stripTableT {t : Table} (h : RectB t = true) :
    RectB (stripTableT t) = true := by
  rw [rectB_iff]
  intro r hr
  simp only [stripTableT] at hr ⊢
  rcases List.mem_map.mp hr with ⟨r0, hr0, rfl⟩
  rw [List.length_map]
  exact rectB_iff.mp h r0 hr0

theorem rectB_dropDuplicatesT {t : Table} (h : RectB t = true) :
    RectB (dropDuplicatesT t) = true := by
  rw [rectB_iff]
  intro r hr
  exact rectB_iff.mp h r ((dedupFirst_sublist t.rows).mem hr)

theorem rectB_dropMissingKeyT {t : Table} {k : String} (h : RectB t = true) :
    RectB (dropMissingKeyT k t) = true := by
  unfold dropMissingKeyT
  cases hk : colIdx t.header k with
  | none => exact h
  | some i =>
    rw [rectB_iff]
    intro r hr
    simp only at hr ⊢
    exact rectB_iff.mp h r (List.mem_filter.mp hr).1

theorem rectB_setCol {t : Table} {c : String} {vs : List Value}
    (h : RectB t = true) (_hlen : vs.length = t.rows.length) :
    RectB (setCol t c vs) = true := by
  unfold setCol
  cases hc : colIdx t.header c with
  | some i =>
    rw [rectB_iff]
    intro r hr
    simp only at hr ⊢
    rcases mem_zipWith hr with ⟨r0, v, hr0, hv, rfl⟩
    rw [List.length_set]
    exact rectB_iff.mp h r0 hr0
  | none =>
    rw [rectB_iff]
    intro r hr
    simp only at hr ⊢
    rcases mem_zipWith hr with ⟨r0, v, hr0, hv, rfl⟩
    rw [List.length_append, List.length_append]
    simp [rectB_iff.mp h r0 hr0]

theorem rectB_combineDatetimeT {t : Table} (h : RectB t = true) :
    RectB (combineDatetimeT t) = true := by
  unfold combineDatetimeT
  cases hi : colIdx t.header "transaction_date" with
  | none => exact h
  | some i =>
    cases hj : colIdx t.header "transaction_time" with
    | none => exact h
    | some j =>
      simp only
      refine rectB_setCol (rectB_mapCol h) ?_
      rw [List.length_map]

/-! ### `setCol` cell lemmas -/

theorem setCol_rows_length {t : Table} {c : String} {vs : List Value}
    (hlen : vs.length = t.rows.length) :
    (setCol t c vs).rows.length = t.rows.length := by
  unfold setCol
  cases hc : colIdx t.header c <;> simp [List.length_zipWith, hlen]

theorem colAll_setCol_other {t : Table} {c c' : String} {p : Value → Bool}
    {vs : List Value} (hne : c' ≠ c) (hRect : RectB t = true)
    (h : colAll t c p = true) : colAll (setCol t c' vs) c p = true := by
  unfold setCol
  cases hc' : colIdx t.header c' with
  | some j =>
    refine colAll_of_forall ?_
    intro r hr i hc
    simp only at hc hr
    rcases mem_zipWith hr with ⟨r0, v, hr0, hv, rfl⟩
    have hij : j ≠ i := colIdx_ne hne hc' hc
    rw [getCell_set_ne hij]
    exact colAll_get h hc r0 hr0
  | none =>
    refine colAll_of_forall ?_
    intro r hr i hc
    simp only at hc hr
    rcases mem_zipWith hr with ⟨r0, v, hr0, hv, rfl⟩
    cases hcold : colIdx t.header c with
    | none =>
      exfalso
      unfold colIdx at hc hcold hc'
      rw [List.findIdx?_append, hcold] at hc
      simp only [Option.none_or, Option.map_eq_some'] at hc
      rcases hc with ⟨i0, hi0, rfl⟩
      have hbeq : (c' == c) = false := beq_eq_false_iff_ne.mpr hne
      simp [List.findIdx?_cons, hbeq] at hi0
    | some i0 =>
      have hc2 : colIdx (t.header ++ [c']) c = some i0 := colIdx_append_left hcold
      rw [hc] at hc2
      injection hc2 with hii
      subst hii
      have hi0 : i < t.header.length := colIdx_lt_length hcold
      have hr0len : r0.length = t.header.length := rectB_iff.mp hRect r0 hr0
      rw [getCell, List.getD_append _ _ _ _ (by rw [hr0len]; exact hi0)]
      exact colAll_get h hcold r0 hr0

theorem colAll_combineDatetimeT {t : Table} {c : String} {p : Value → Bool}
    (hne : c ≠ "transaction_datetime") (hnett : c ≠ "transaction_time")
    (hRect : RectB t = true) (h : colAll t c p = true) :
    colAll (combineDatetimeT t) c p = true := by
  unfold combineDatetimeT
  cases hi : colIdx t.header "transaction_date" with
  | none => exact h
  | some i =>
    cases hj : colIdx t.header "transaction_time" with
    | none => exact h
    | some j =>
      simp only
      refine colAll_setCol_other (fun hcc => hne hcc.symm) ?_ ?_
      · exact rectB_mapCol hRect
      · exact colAll_mapCol_other (fun hcc => hnett hcc.symm) h

/-! ### `allCells` transfer lemmas -/

theorem allCells_of_forall {t : Table} {p : Value → Bool}
    (h : ∀ r ∈ t.rows, ∀ v ∈ r, p v = true) : allCells t p = true := by
  unfold allCells
  rw [List.all_eq_true]
  intro r hr
  rw [List.all_eq_true]
  exact h r hr

theorem allCells_get {t : Table} {p : Value → Bool} (h : allCells t p = true) :
    ∀ r ∈ t.rows, ∀ v ∈ r, p v = true := by
  unfold allCells at h
  rw [List.all_eq_true] at h
  intro r hr
  have := h r hr
  rw [List.all_eq_true] at this
  exact this

theorem allCells_stripTableT_self (t : Table) :
    allCells (stripTableT t) (fixedBy stripCell) = true := by
  refine allCells_of_forall ?_
  intro r hr v hv
  simp only [stripTableT] at hr
  rcases List.mem_map.mp hr with ⟨r0, hr0, rfl⟩
  rcases List.mem_map.mp hv with ⟨v0, hv0, rfl⟩
  exact fixedBy_iff.mpr (stripCell_idem v0)

theorem allCells_mapCol {t : Table} {p : Value → Bool} {c : String}
    {f : Value → Value} (h : allCells t p = true)
    (himp : ∀ v, p v = true → p (f v) = true) :
    allCells (mapCol t c f) p = true := by
  unfold mapCol
  cases hc : colIdx t.header c with
  | none => exact h
  | some i =>
    refine allCells_of_forall ?_
    intro r hr v hv
    simp only at hr
    rcases List.mem_map.mp hr with ⟨r0, hr0, rfl⟩
    by_cases hlen : i < r0.length
    · rcases List.mem_or_eq_of_mem_set hv with hv0 | rfl
      · exact allCells_get h r0 hr0 v hv0
      · refine himp _ ?_
        have hmem : getCell r0 i ∈ r0 := by
          rw [getCell, List.getD_eq_getElem _ _ hlen]
          exact List.getElem_mem hlen
        exact allCells_get h r0 hr0 _ hmem
    · rw [List.set_eq_of_length_le (Nat.le_of_not_lt hlen)] at hv
      exact allCells_get h r0 hr0 v hv

theorem allCells_setCol {t : Table} {p : Value → Bool} {c : String}
    {vs : List Value} (h : allCells t p = true) (hvs : vs.all p = true) :
    allCells (setCol t c vs) p = true := by
  unfold setCol
  cases hc : colIdx t.header c with
  | some i =>
    refine allCells_of_forall ?_
    intro r hr v hv
    simp only at hr
    rcases mem_zipWith hr with ⟨r0, v0, hr0, hv0, rfl⟩
    rcases List.mem_or_eq_of_mem_set hv with hvr | rfl
    · exact allCells_get h r0 hr0 v hvr
    · exact List.all_eq_true.mp hvs _ hv0
  | none =>
    refine allCells_of_forall ?_
    intro r hr v hv
    simp only at hr
    rcases mem_zipWith hr with ⟨r0, v0, hr0, hv0, rfl⟩
    rw [List.mem_append] at hv
    rcases hv with hvr | hvv
    · exact allCells_get h r0 hr0 v hvr
    · rw [List.mem_singleton] at hvv
      subst hvv
      exact List.all_eq_true.mp hvs _ hv0

theorem allCells_dropDuplicatesT {t : Table} {p : Value → Bool}
    (h : allCells t p = true) : allCells (dropDuplicatesT t) p = true := by
  refine allCells_of_forall ?_
  intro r hr v hv
  exact allCells_get h r ((dedupFirst_sublist t.rows).mem hr) v hv

theorem allCells_dropMissingKeyT {t : Table} {p : Value → Bool} {k : String}
    (h : allCells t p = true) : allCells (dropMissingKeyT k t) p = true := by
  unfold dropMissingKeyT
  cases hk : colIdx t.header k with
  | none => exact h
  | some i =>
    refine allCells_of_forall ?_
    intro r hr v hv
    simp only at hr
    exact allCells_get h r (List.mem_filter.mp hr).1 v hv

theorem allCells_foldl_mapCol {cs : List String} {t : Table} {p : Value → Bool}
    {f : Value → Value} (h : allCells t p = true)
    (himp : ∀ v, p v = true → p (f v) = true) :
    allCells (cs.foldl (fun a c => mapCol a c f) t) p = true := by
  induction cs generalizing t with
  | nil => exact h
  | cons c cs ih => exact ih (allCells_mapCol h himp)

theorem colAll_foldl_mapCol_other {cs : List String} {t : Table} {c : String}
    {p : Value → Bool} {f : Value → Value} (hnot : c ∉ cs)
    (h : colAll t c p = true) :
    colAll (cs.foldl (fun a c' => mapCol a c' f) t) c p = true := by
  induction cs generalizing t with
  | nil => exact h
  | cons c' cs ih =>
    rw [List.mem_cons, not_or] at hnot
    exact ih hnot.2 (colAll_mapCol_other (fun hcc => hnot.1 hcc.symm) h)

/-! ### Identity lemmas (for the second cleaning pass) -/

theorem mapCol_id {t : Table} {c : String} {f : Value → Value}
    (hfix : colAll t c (fixedBy f) = true) : mapCol t c f = t := by
  unfold mapCol
  cases hc : colIdx t.header c with
  | none => rfl
  | some i =>
    have hrows : t.rows.map (fun r => r.set i (f (getCell r i))) = t.rows := by
      refine map_eq_self_of_all ?_
      intro r hr
      rw [fixedBy_iff.mp (colAll_get hfix hc r hr)]
      exact set_getCell_self r i
    show Table.mk t.header (t.rows.map (fun r => r.set i (f (getCell r i)))) = t
    rw [hrows]

theorem stripTableT_id {t : Table} (h : allCells t (fixedBy stripCell) = true) :
    stripTableT t = t := by
  unfold stripTableT
  have : t.rows.map (fun r => r.map stripCell) = t.rows := by
    refine map_eq_self_of_all ?_
    intro r hr
    refine map_eq_self_of_all ?_
    intro v hv
    exact fixedBy_iff.mp (allCells_get h r hr v hv)
  rw [this]

theorem dropDuplicatesT_id {t : Table} (h : t.rows.Nodup) :
    dropDuplicatesT t = t := by
  unfold dropDuplicatesT
  rw [dedupFirst_of_nodup h]

theorem dropMissingKeyT_id {t : Table} {k : String}
    (h : colAll t k nonNullB = true) : dropMissingKeyT k t = t := by
  unfold dropMissingKeyT
  cases hk : colIdx t.header k with
  | none => rfl
  | some i =>
    have hrows : t.rows.filter (fun r => decide (getCell r i ≠ Value.null)) =
        t.rows := by
      rw [List.filter_eq_self]
      intro r hr
      have := colAll_get h hk r hr
      simpa [nonNullB] using this
    show Table.mk t.header
      (t.rows.filter (fun r => decide (getCell r i ≠ Value.null))) = t
    rw [hrows]

theorem foldl_mapCol_id {cs : List String} {t : Table} {f : Value → Value}
    (h : ∀ c ∈ cs, colAll t c (fixedBy f) = true) :
    cs.foldl (fun a c => mapCol a c f) t = t := by
  induction cs with
  | nil => rfl
  | cons c cs ih =>
    rw [List.foldl_cons, mapCol_id (h c (List.mem_cons_self c cs))]
    exact ih (fun c' hc' => h c' (List.mem_cons_of_mem c hc'))

theorem combineDatetimeT_rows_length (t : Table) :
    (combineDatetimeT t).rows.length = t.rows.length := by
  unfold combineDatetimeT
  cases hi : colIdx t.header "transaction_date" with
  | none => rfl
  | some i =>
    cases hj : colIdx t.header "transaction_time" with
    | none => rfl
    | some j =>
      simp only
      rw [setCol_rows_length, mapCol_rows_length]
      rw [List.length_map]

theorem middleStages_rows_length (dc nc : List String) (t : Table) :
    (upperGeoT (lowerDebitCreditT (coerceNumericT nc (combineDatetimeT
      (parseDatesT dc (stripTableT t)))))).rows.length = t.rows.length := by
  unfold upperGeoT lowerDebitCreditT coerceNumericT parseDatesT
  rw [foldl_mapCol_rows_length, mapCol_rows_length, foldl_mapCol_rows_length,
    combineDatetimeT_rows_length, foldl_mapCol_rows_length,
    stripTableT_rows_length]

/-- C2: `clean_transactions` applies the cleaning rules in exactly the
fixed source order: duplicate removal, whitespace stripping, date
parsing, timestamp synthesis (missing times filled with midnight),
numeric coercion, debit/credit lowercasing, geographic uppercasing, and
finally the drop of rows with a missing `customer_id`. -/
theorem clean_transactions_rule_order (df : Table) (dateCols numericCols : List String) :
    clean_transactions df dateCols numericCols =
      dropMissingKeyT "customer_id" (upperGeoT (lowerDebitCreditT
        (coerceNumericT numericCols (combineDatetimeT (parseDatesT dateCols
          (stripTableT (dropDuplicatesT df))))))) := rfl

/-- C5: type-coercion failures are never fatal: an unparseable numeric or
date/timestamp string coerces to the missing marker; none of the cleaning
rules between duplicate removal and the final key-drop removes a row; and
the final rule keeps exactly the rows whose `customer_id` cell is
non-missing (all rows, when the column is absent). -/
theorem coercion_never_fatal :
    (∀ s, parseNumStr s = none → toNumericCoerce (Value.str s) = Value.null) ∧
    (∀ s, parseDateTimeAny s = none → toDatetimeCoerce (Value.str s) = Value.null) ∧
    (∀ t dc nc, (upperGeoT (lowerDebitCreditT (coerceNumericT nc
      (combineDatetimeT (parseDatesT dc (stripTableT t)))))).rows.length =
        t.rows.length) ∧
    (∀ t k i, colIdx t.header k = some i →
      (dropMissingKeyT k t).rows =
        t.rows.filter (fun r => decide (getCell r i ≠ Value.null))) := by
  refine ⟨?_, ?_, ?_, ?_⟩
  · intro s hs
    simp [toNumericCoerce, hs]
  · intro s hs
    simp [toDatetimeCoerce, hs]
  · intro t dc nc
    exact middleStages_rows_length dc nc t
  · intro t k i hk
    unfold dropMissingKeyT
    rw [hk]

/-- Witness for C5 at concrete inputs. -/
theorem coercion_never_fatal_witness :
    toNumericCoerce (Value.str "abc") = Value.null ∧
    toDatetimeCoerce (Value.str "not a date") = Value.null ∧
    (upperGeoT (lowerDebitCreditT (coerceNumericT ["amount_cad"]
      (combineDatetimeT (parseDatesT ["transaction_date"]
        (stripTableT rawTxnTable)))))).rows.length = rawTxnTable.rows.length ∧
    (dropMissingKeyT "customer_id" rawTxnTable).rows =
      rawTxnTable.rows.filter (fun r => decide (getCell r 0 ≠ Value.null)) :=
  ⟨coercion_never_fatal.1 "abc" (by decide),
   coercion_never_fatal.2.1 "not a date" (by decide),
   coercion_never_fatal.2.2.1 rawTxnTable ["transaction_date"] ["amount_cad"],
   coercion_never_fatal.2.2.2 rawTxnTable "customer_id" 0 (by decide)⟩

/-- C6: when none of the requested feature columns exists in the table,
`detect_anomalies` returns its input unchanged — no `anomaly_score` or
`is_anomaly` column is added and no row is touched. -/
theorem detect_anomalies_no_features (df : Table)
    (fitPredict : List (List Value) → List Int) (features : List String)
    (h : ∀ c ∈ features, c ∉ df.header) :
    detect_anomalies df fitPredict features = df := by
  unfold detect_anomalies
  have hfil : features.filter (fun c => decide (c ∈ df.header)) = [] := by
    rw [List.filter_eq_nil_iff]
    intro c hc
    simpa using h c hc
  rw [hfil]
  rfl

/-- Witness for C6: a feature list naming only a non-existent column. -/
theorem detect_anomalies_no_features_witness :
    detect_anomalies anomTable fpNeg1 ["no_such_column"] = anomTable :=
  detect_anomalies_no_features anomTable fpNeg1 ["no_such_column"] (by decide)

/-! ### `getColVals` lemmas -/

theorem getColVals_mapCol_other {t : Table} {c c' : String} {f : Value → Value}
    (hne : c' ≠ c) : getColVals (mapCol t c' f) c = getColVals t c := by
  unfold mapCol
  cases hc' : colIdx t.header c' with
  | none => rfl
  | some j =>
    unfold getColVals
    simp only
    cases hc : colIdx t.header c with
    | none => rfl
    | some i =>
      show (t.rows.map (fun r => r.set j (f (getCell r j)))).map
          (fun r => getCell r i) = t.rows.map (fun r => getCell r i)
      rw [List.map_map]
      refine List.map_congr_left ?_
      intro r hr
      simp only [Function.comp]
      exact getCell_set_ne (colIdx_ne hne hc' hc) _

theorem getColVals_mapCol_self {t : Table} {c : String} {f : Value → Value}
    (hRect : RectB t = true) :
    getColVals (mapCol t c f) c = (getColVals t c).map f := by
  unfold mapCol
  cases hc : colIdx t.header c with
  | none =>
    unfold getColVals
    rw [hc]
    rfl
  | some i =>
    unfold getColVals
    simp only
    rw [hc]
    show (t.rows.map (fun r => r.set i (f (getCell r i)))).map
        (fun r => getCell r i) = (t.rows.map (fun r => getCell r i)).map f
    rw [List.map_map, List.map_map]
    refine List.map_congr_left ?_
    intro r hr
    simp only [Function.comp]
    have hlen : i < r.length := by
      rw [rectB_iff.mp hRect r hr]
      exact colIdx_lt_length hc
    exact getCell_set_self hlen _

theorem getColVals_clean_bool_not_mem {t : Table} {cols : List String} {c : String}
    (hnot : c ∉ cols) :
    getColVals (clean_bool_columns t cols) c = getColVals t c := by
  unfold clean_bool_columns
  induction cols generalizing t with
  | nil => rfl
  | cons c0 cs ih =>
    rw [List.mem_cons, not_or] at hnot
    rw [List.foldl_cons, ih hnot.2,
      getColVals_mapCol_other (fun hcc => hnot.1 hcc.symm)]

/-- C10 (core lemma): for `Nodup` column lists, each listed column of
`clean_bool_columns` is mapped cell-wise through Python truthiness. -/
theorem clean_bool_columns_cols {t : Table} {cols : List String}
    (hRect : RectB t = true) (hnd : cols.Nodup) :
    ∀ c ∈ cols, getColVals (clean_bool_columns t cols) c =
      (getColVals t c).map boolCoerce := by
  induction cols generalizing t with
  | nil => simp
  | cons c0 cs ih =>
    intro c hc
    rcases List.nodup_cons.mp hnd with ⟨hc0, hcs⟩
    rcases List.mem_cons.mp hc with rfl | hmem
    · have hstep : clean_bool_columns t (c :: cs) =
          clean_bool_columns (mapCol t c boolCoerce) cs := rfl
      rw [hstep, getColVals_clean_bool_not_mem hc0,
        getColVals_mapCol_self hRect]
    · have hstep : clean_bool_columns t (c0 :: cs) =
          clean_bool_columns (mapCol t c0 boolCoerce) cs := rfl
      have hne : c0 ≠ c := fun hcc => hc0 (hcc ▸ hmem)
      rw [hstep, ih (rectB_mapCol hRect) hcs c hmem,
        getColVals_mapCol_other hne]

/-- C10: `clean_bool_columns` replaces every value of each listed,
existing column by its Python truthiness: every non-empty string
(including "False" and "0") and every non-zero number becomes `True`;
only empty strings and zeros become `False`; missing values (`NaN`) are
truthy; no value fails to coerce. -/
theorem clean_bool_columns_truthiness (t : Table) (cols : List String)
    (hRect : RectB t = true) (hnd : cols.Nodup) :
    (∀ c ∈ cols, getColVals (clean_bool_columns t cols) c =
      (getColVals t c).map boolCoerce) ∧
    (∀ s, boolCoerce (Value.str s) = Value.boolv (decide (s ≠ ""))) ∧
    (∀ q, boolCoerce (Value.num q) = Value.boolv (decide (q ≠ 0))) ∧
    boolCoerce Value.null = Value.boolv true := by
  refine ⟨clean_bool_columns_cols hRect hnd, ?_, ?_, rfl⟩
  · intro s
    rfl
  · intro q
    rfl

/-- Witness for C10: the string "False" maps to `True`, the empty string
and zero to `False`, on a concrete indicator column. -/
theorem clean_bool_columns_truthiness_witness :
    (∀ c ∈ ["ecommerce_ind"],
      getColVals (clean_bool_columns boolTable ["ecommerce_ind"]) c =
        (getColVals boolTable c).map boolCoerce) ∧
    (∀ s, boolCoerce (Value.str s) = Value.boolv (decide (s ≠ ""))) ∧
    (∀ q, boolCoerce (Value.num q) = Value.boolv (decide (q ≠ 0))) ∧
    boolCoerce Value.null = Value.boolv true :=
  clean_bool_columns_truthiness boolTable ["ecommerce_ind"] (by decide) (by decide)

/-! ### C7: card-family sign normalization -/

/-- C7: after cleaning and the card-family post-processing, every
`amount_cad` cell is either missing or a non-negative number. -/
theorem card_amounts_nonneg (t : Table) :
    colAll (cardPostProcess
      (clean_transactions t ["transaction_date"] ["amount_cad"]))
      "amount_cad" amountOkB = true := by
  have h5 : colAll
      (coerceNumericT ["amount_cad"] (combineDatetimeT (parseDatesT
        ["transaction_date"] (stripTableT (dropDuplicatesT t)))))
      "amount_cad" (fun v => amountOkB (absCell v)) = true := by
    refine colAll_mapCol_self ?_ rfl
    intro v
    cases v with
    | num q => simp [toNumericCoerce, absCell, amountOkB, abs_nonneg]
    | str s =>
      simp only [toNumericCoerce]
      cases parseNumStr s with
      | none => rfl
      | some q => simp [absCell, amountOkB, abs_nonneg]
    | boolv b => cases b <;> simp [toNumericCoerce, absCell, amountOkB]
    | null => rfl
    | dt d sec => rfl
  have h6 : colAll
      (lowerDebitCreditT (coerceNumericT ["amount_cad"] (combineDatetimeT
        (parseDatesT ["transaction_date"] (stripTableT (dropDuplicatesT t))))))
      "amount_cad" (fun v => amountOkB (absCell v)) = true :=
    colAll_mapCol_other (by decide) h5
  have h7 : colAll
      (upperGeoT (lowerDebitCreditT (coerceNumericT ["amount_cad"]
        (combineDatetimeT (parseDatesT ["transaction_date"] (stripTableT
          (dropDuplicatesT t)))))))
      "amount_cad" (fun v => amountOkB (absCell v)) = true := by
    unfold upperGeoT
    refine colAll_mapCol_other (by decide) ?_
    refine colAll_mapCol_other (by decide) ?_
    exact colAll_mapCol_other (by decide) h6
  have h8 : colAll (clean_transactions t ["transaction_date"] ["amount_cad"])
      "customer_id" nonNullB = true := colAll_dropMissingKeyT_self _ _
  have h8' : colAll (clean_transactions t ["transaction_date"] ["amount_cad"])
      "amount_cad" (fun v => amountOkB (absCell v)) = true :=
    colAll_dropMissingKeyT h7
  exact colAll_mapCol_trans h8' (fun v hv => hv) rfl

/-! ### C1: key invariant, corrected -/

/-- C1 counterexample, one concrete input per failing portion of the
claim: (a) duplicate removal runs before whitespace stripping, so two raw
transaction rows differing only in trailing whitespace survive
deduplication and become equal full rows in the cleaned output; and
(b) `clean_kyc_industry_codes` has no key-null drop, so a missing index
label (a NaN read into the index) survives as a null `industry_code`
cell in the cleaned industry-code table. -/
theorem cleaned_key_invariant_cex :
    (¬ (clean_transactions dupTable ["transaction_date"]
        ["amount_cad"]).rows.Nodup) ∧
    colAll (clean_kyc_industry_codes "index" [Value.null]
      (Table.mk ["desc"] [[Value.str "x"]])) "industry_code" nonNullB =
        false := by
  refine ⟨by decide, by decide⟩

theorem dedupPairsFirstAux_nodup (seen : List (List Value))
    (l : List (Value × List Value)) :
    ((dedupPairsFirstAux seen l).map Prod.snd).Nodup ∧
      ∀ x ∈ (dedupPairsFirstAux seen l).map Prod.snd, x ∉ seen := by
  induction l generalizing seen with
  | nil =>
    rw [dedupPairsFirstAux]
    exact ⟨List.nodup_nil, by simp⟩
  | cons p ps ih =>
    rw [dedupPairsFirstAux]
    by_cases hp : p.2 ∈ seen
    · rw [if_pos hp]
      exact ih seen
    · rw [if_neg hp]
      rcases ih (p.2 :: seen) with ⟨hnd, hnot⟩
      rw [List.map_cons]
      constructor
      · refine List.nodup_cons.mpr ⟨?_, hnd⟩
        intro hmem
        exact hnot p.2 hmem (List.mem_cons_self p.2 seen)
      · intro x hx
        rcases List.mem_cons.mp hx with rfl | hx'
        · exact hp
        · intro hxs
          exact hnot x hx' (List.mem_cons_of_mem p.2 hxs)

theorem dedupPairsFirst_nodup (l : List (Value × List Value)) :
    ((dedupPairsFirst l).map Prod.snd).Nodup :=
  (dedupPairsFirstAux_nodup [] l).1

/-- C1 (amended): the cleaned transaction and KYC tables never carry a
missing `customer_id` (the industry-code cleaner gives no such guarantee
for `industry_code`, having no key-null drop), and in all three cleaners
the duplicate-removal step itself produces pairwise-distinct rows — but
normalization after it may re-create duplicate full rows, so a cleaned
table need not be duplicate-free. -/
theorem cleaned_key_nonnull_and_dedup :
    (∀ t dc nc, colAll (clean_transactions t dc nc) "customer_id" nonNullB = true) ∧
    (∀ idxName idx df,
      colAll (clean_kyc_data idxName idx df) "customer_id" nonNullB = true) ∧
    (∀ l : List (List Value), (dedupFirst l).Nodup) ∧
    (∀ l : List (Value × List Value), ((dedupPairsFirst l).map Prod.snd).Nodup) := by
  refine ⟨?_, ?_, ?_, ?_⟩
  · intro t dc nc
    exact colAll_dropMissingKeyT_self _ _
  · intro idxName idx df
    exact colAll_dropMissingKeyT_self _ _
  · exact dedupFirst_nodup
  · exact dedupPairsFirst_nodup

/-! ### C8: frame effects of the stages, corrected -/

/-- C8 counterexample: `detect_anomalies` assigns its result columns on
the caller's table in place, so after the call the caller's table has
gained the `anomaly_score`/`is_anomaly` columns. -/
theorem detect_anomalies_mutates_caller_cex :
    (detect_anomalies_eff anomTable fpNeg1 ["amount_cad"]).2 ≠ anomTable := by
  decide

/-- C8 (amended): the two cleaners copy their argument before mutating,
so the caller's table is unchanged after the call; `detect_anomalies`
instead writes its new columns into the caller's table, whose post-call
state is exactly the returned table. -/
theorem stage_frame_effects (df kdf adf : Table) (dateCols numericCols : List String)
    (idxName : String) (idx : List Value)
    (fitPredict : List (List Value) → List Int) (features : List String) :
    (clean_transactions_eff df dateCols numericCols).2 = df ∧
    (clean_kyc_data_eff idxName idx kdf).2 = kdf ∧
    (detect_anomalies_eff adf fitPredict features).2 =
      (detect_anomalies_eff adf fitPredict features).1 :=
  ⟨rfl, rfl, rfl⟩

/-! ### `setCol` column-extraction lemmas -/

theorem map_zipWith_left {α β γ : Type} {f : α → β → α} {g : α → γ}
    {l1 : List α} {l2 : List β}
    (h : ∀ a ∈ l1, ∀ b ∈ l2, g (f a b) = g a) (hlen : l2.length = l1.length) :
    (List.zipWith f l1 l2).map g = l1.map g := by
  induction l1 generalizing l2 with
  | nil => simp
  | cons a as ih =>
    cases l2 with
    | nil => simp at hlen
    | cons b bs =>
      rw [List.zipWith_cons_cons, List.map_cons, List.map_cons,
        h a (List.mem_cons_self a as) b (List.mem_cons_self b bs)]
      congr 1
      refine ih ?_ ?_
      · intro a' ha' b' hb'
        exact h a' (List.mem_cons_of_mem a ha') b' (List.mem_cons_of_mem b hb')
      · simpa using hlen

theorem map_zipWith_right {α β : Type} {f : α → β → α} {g : α → β}
    {l1 : List α} {l2 : List β}
    (h : ∀ a ∈ l1, ∀ b ∈ l2, g (f a b) = b) (hlen : l2.length = l1.length) :
    (List.zipWith f l1 l2).map g = l2 := by
  induction l1 generalizing l2 with
  | nil =>
    cases l2 with
    | nil => simp
    | cons b bs => simp at hlen
  | cons a as ih =>
    cases l2 with
    | nil => simp at hlen
    | cons b bs =>
      rw [List.zipWith_cons_cons, List.map_cons,
        h a (List.mem_cons_self a as) b (List.mem_cons_self b bs)]
      congr 1
      refine ih ?_ ?_
      · intro a' ha' b' hb'
        exact h a' (List.mem_cons_of_mem a ha') b' (List.mem_cons_of_mem b hb')
      · simpa using hlen

theorem getColVals_setCol_self {t : Table} {c : String} {vs : List Value}
    (hRect : RectB t = true) (hlen : vs.length = t.rows.length) :
    getColVals (setCol t c vs) c = vs := by
  unfold setCol
  cases hc : colIdx t.header c with
  | some i =>
    unfold getColVals
    simp only
    rw [hc]
    show (List.zipWith (fun r v => r.set i v) t.rows vs).map
        (fun r => getCell r i) = vs
    refine map_zipWith_right ?_ hlen
    intro r hr v hv
    have hi : i < r.length := by
      rw [rectB_iff.mp hRect r hr]
      exact colIdx_lt_length hc
    exact getCell_set_self hi v
  | none =>
    unfold getColVals
    simp only
    rw [colIdx_append_self hc]
    show (List.zipWith (fun r v => r ++ [v]) t.rows vs).map
        (fun r => getCell r t.header.length) = vs
    refine map_zipWith_right ?_ hlen
    intro r hr v hv
    have hr' : r.length = t.header.length := rectB_iff.mp hRect r hr
    rw [getCell, ← hr', List.getD_append_right _ _ _ _ (le_refl r.length)]
    simp

theorem getColVals_setCol_other {t : Table} {c c' : String} {vs : List Value}
    (hne : c' ≠ c) (hRect : RectB t = true) (hlen : vs.length = t.rows.length) :
    getColVals (setCol t c' vs) c = getColVals t c := by
  unfold setCol
  cases hc' : colIdx t.header c' with
  | some j =>
    unfold getColVals
    simp only
    cases hc : colIdx t.header c with
    | none => rfl
    | some i =>
      show (List.zipWith (fun r v => r.set j v) t.rows vs).map
          (fun r => getCell r i) = t.rows.map (fun r => getCell r i)
      refine map_zipWith_left ?_ hlen
      intro r hr v hv
      exact getCell_set_ne (colIdx_ne hne hc' hc) v
  | none =>
    unfold getColVals
    simp only
    cases hc : colIdx t.header c with
    | none =>
      have hout : colIdx (t.header ++ [c']) c = none := by
        unfold colIdx at *
        rw [List.findIdx?_append, hc]
        have hbeq : (c' == c) = false := beq_eq_false_iff_ne.mpr hne
        simp [List.findIdx?_cons, hbeq]
      rw [hout]
    | some i =>
      rw [colIdx_append_left hc]
      show (List.zipWith (fun r v => r ++ [v]) t.rows vs).map
          (fun r => getCell r i) = t.rows.map (fun r => getCell r i)
      refine map_zipWith_left ?_ hlen
      intro r hr v hv
      have hi : i < r.length := by
        rw [rectB_iff.mp hRect r hr]
        exact colIdx_lt_length hc
      rw [getCell, getCell, List.getD_append _ _ _ _ hi]

theorem getColVals_length_of_some {t : Table} {c : String} {i : Nat}
    (hc : colIdx t.header c = some i) :
    (getColVals t c).length = t.rows.length := by
  unfold getColVals
  rw [hc, List.length_map]

theorem setCol_colIdx_self {t : Table} (c : String) (vs : List Value) :
    ∃ m, colIdx (setCol t c vs).header c = some m := by
  unfold setCol
  cases hc : colIdx t.header c with
  | some i =>
    exact ⟨i, hc⟩
  | none =>
    exact ⟨t.header.length, colIdx_append_self hc⟩

/-! ### C4: anomaly additivity -/

/-- C4: for a rectangular input and a row-count-preserving fitted model,
the Outlier Scorer keeps exactly the input's rows (same count — in both
the scored and the missing-features branch), and whenever scoring
happened, the `is_anomaly` column is cell-for-cell the comparison of the
`anomaly_score` column with the outlier sentinel `-1`. -/
theorem detect_anomalies_additive (df : Table)
    (fitPredict : List (List Value) → List Int) (features : List String)
    (hRect : RectB df = true) (hfp : ∀ x, (fitPredict x).length = x.length) :
    (detect_anomalies df fitPredict features).rows.length = df.rows.length ∧
    (features.filter (fun c => decide (c ∈ df.header)) ≠ [] →
      getColVals (detect_anomalies df fitPredict features) "is_anomaly" =
        (getColVals (detect_anomalies df fitPredict features) "anomaly_score").map
          (fun v => Value.boolv (decide (v = Value.num (-1))))) := by
  by_cases hav : features.filter (fun c => decide (c ∈ df.header)) = []
  · constructor
    · unfold detect_anomalies
      rw [hav]
      rfl
    · intro hne
      exact absurd hav hne
  · have hstep : detect_anomalies df fitPredict features =
        setCol (setCol df "anomaly_score"
          ((fitPredict (df.rows.map (fun r =>
            (features.filter (fun c => decide (c ∈ df.header))).map (fun c =>
              match colIdx df.header c with
              | some i => getCell r i
              | none => Value.null)))).map (fun (p : Int) => Value.num (p : Rat))))
          "is_anomaly"
          ((getColVals (setCol df "anomaly_score"
            ((fitPredict (df.rows.map (fun r =>
              (features.filter (fun c => decide (c ∈ df.header))).map (fun c =>
                match colIdx df.header c with
                | some i => getCell r i
                | none => Value.null)))).map (fun (p : Int) => Value.num (p : Rat))))
            "anomaly_score").map
              (fun v => Value.boolv (decide (v = Value.num (-1))))) := by
      unfold detect_anomalies
      rw [if_neg (by simpa [List.isEmpty_iff] using hav)]
    set svals := (fitPredict (df.rows.map (fun r =>
      (features.filter (fun c => decide (c ∈ df.header))).map (fun c =>
        match colIdx df.header c with
        | some i => getCell r i
        | none => Value.null)))).map (fun (p : Int) => Value.num (p : Rat)) with hsvals
    have hsvlen : svals.length = df.rows.length := by
      rw [hsvals, List.length_map, hfp, List.length_map]
    set d1 := setCol df "anomaly_score" svals with hd1
    have hd1len : d1.rows.length = df.rows.length := setCol_rows_length hsvlen
    have hd1rect : RectB d1 = true := rectB_setCol hRect hsvlen
    have hbvlen : ((getColVals d1 "anomaly_score").map
        (fun v => Value.boolv (decide (v = Value.num (-1))))).length =
          d1.rows.length := by
      rcases setCol_colIdx_self (t := df) "anomaly_score" svals with ⟨m, hm⟩
      rw [List.length_map, getColVals_length_of_some hm]
    constructor
    · rw [hstep, setCol_rows_length hbvlen, hd1len]
    · intro hne
      rw [hstep]
      rw [getColVals_setCol_self hd1rect hbvlen,
        getColVals_setCol_other (by decide) hd1rect hbvlen]

/-- Witness for C4 on a concrete table and model. -/
theorem detect_anomalies_additive_witness :
    (detect_anomalies anomTable fpNeg1 ["amount_cad"]).rows.length =
      anomTable.rows.length ∧
    ((["amount_cad"]).filter (fun c => decide (c ∈ anomTable.header)) ≠ [] →
      getColVals (detect_anomalies anomTable fpNeg1 ["amount_cad"]) "is_anomaly" =
        (getColVals (detect_anomalies anomTable fpNeg1 ["amount_cad"])
          "anomaly_score").map
            (fun v => Value.boolv (decide (v = Value.num (-1))))) :=
  detect_anomalies_additive anomTable fpNeg1 ["amount_cad"] (by decide)
    (fun x => by simp [fpNeg1])

/-! ### C9: embedding artifact shape -/

theorem denseRelu_length (w : List (List Rat)) (b x : List Rat) :
    (denseRelu w b x).length = min w.length b.length := by
  unfold denseRelu
  rw [List.length_zipWith]

theorem preprocess_length (df : Table) (cols : List String) :
    (preprocess_kyc_data df cols).length = df.rows.length := by
  unfold preprocess_kyc_data
  simp

theorem digitChar_isDigit {m : Nat} (h : m < 10) :
    (Nat.digitChar m).isDigit = true := by
  interval_cases m <;> decide

/-- C9: the embeddings artifact has exactly one line per KYC customer
row; every line is the customer identifier followed by an embedding of
exactly 16 components; and the fixed-point formatter always renders a
value with exactly 8 digit characters after the decimal point. -/
theorem embeddings_shape (df : Table) (w1 : List (List Rat)) (b1 : List Rat)
    (w2 : List (List Rat)) (b2 : List Rat) (cols : List String) (i : Nat)
    (hcid : colIdx df.header "customer_id" = some i)
    (hw2 : w2.length = 16) (hb2 : b2.length = 16) :
    (generate_customer_embeddings df w1 b1 w2 b2 cols).length =
      df.rows.length ∧
    (∀ line ∈ generate_customer_embeddings df w1 b1 w2 b2 cols,
      ∃ cid emb, line = embLine cid emb ∧ emb.length = 16) ∧
    (∀ q : Rat, format8 q =
      ((if q < 0 then "-" else "") ++ Nat.repr (scaled8 q / 100000000)) ++ "." ++
        String.mk (fracDigits8 (scaled8 q % 100000000)) ∧
      (fracDigits8 (scaled8 q % 100000000)).length = 8 ∧
      ∀ ch ∈ fracDigits8 (scaled8 q % 100000000), ch.isDigit = true) := by
  have hcids : ((getColVals df "customer_id").map valueToStr).length =
      df.rows.length := by
    rw [List.length_map, getColVals_length_of_some hcid]
  have hembs : ((preprocess_kyc_data df cols).map
      (encoderApply w1 b1 w2 b2)).length = df.rows.length := by
    rw [List.length_map, preprocess_length]
  refine ⟨?_, ?_, ?_⟩
  · unfold generate_customer_embeddings
    rw [List.length_map, List.length_zip, hcids, hembs, min_self]
  · intro line hline
    unfold generate_customer_embeddings at hline
    rcases List.mem_map.mp hline with ⟨p, hp, rfl⟩
    rcases List.of_mem_zip hp with ⟨hp1, hp2⟩
    rcases List.mem_map.mp hp2 with ⟨x, hx, hemb⟩
    refine ⟨p.1, p.2, rfl, ?_⟩
    rw [← hemb]
    unfold encoderApply
    rw [denseRelu_length, hw2, hb2]
    rfl
  · intro q
    refine ⟨?_, ?_, ?_⟩
    · unfold format8
      rw [String.append_assoc]
    · unfold fracDigits8
      rw [List.length_map, List.length_range]
    · intro ch hch
      unfold fracDigits8 at hch
      rcases List.mem_map.mp hch with ⟨k, hk, rfl⟩
      exact digitChar_isDigit (Nat.mod_lt _ (by norm_num))

/-- Witness for C9 on a one-customer table with architecture-shaped
weights. -/
theorem embeddings_shape_witness :
    (generate_customer_embeddings kycSmall w1Small b1Small w2Small b2Small
      ["sales"]).length = kycSmall.rows.length ∧
    (∀ line ∈ generate_customer_embeddings kycSmall w1Small b1Small w2Small
      b2Small ["sales"],
      ∃ cid emb, line = embLine cid emb ∧ emb.length = 16) ∧
    (∀ q : Rat, format8 q =
      ((if q < 0 then "-" else "") ++ Nat.repr (scaled8 q / 100000000)) ++ "." ++
        String.mk (fracDigits8 (scaled8 q % 100000000)) ∧
      (fracDigits8 (scaled8 q % 100000000)).length = 8 ∧
      ∀ ch ∈ fracDigits8 (scaled8 q % 100000000), ch.isDigit = true) :=
  embeddings_shape kycSmall w1Small b1Small w2Small b2Small ["sales"] 0
    (by decide) (by decide) (by decide)

/-! ### Timestamp-synthesis stability lemmas -/

theorem fillMidnight_idem (v : Value) :
    fillMidnight (fillMidnight v) = fillMidnight v :=
  fillMidnight_of_nonNull (fillMidnight_nonNull v)

theorem zipWith_map_self {α β γ : Type} (f : α → β → γ) (g : α → β)
    (l : List α) :
    List.zipWith f l (l.map g) = l.map (fun a => f a (g a)) := by
  rw [List.zipWith_map_right, List.zipWith_same]

/-- The timestamp-synthesis step is the identity on a stable table. -/
theorem combineDatetimeT_id {t : Table} (h : combineStableB t = true) :
    combineDatetimeT t = t := by
  unfold combineDatetimeT
  unfold combineStableB at h
  cases hi : colIdx t.header "transaction_date" with
  | none => rfl
  | some i =>
    cases hj : colIdx t.header "transaction_time" with
    | none => rfl
    | some j =>
      rw [hi, hj] at h
      simp only at h ⊢
      cases hk : colIdx t.header "transaction_datetime" with
      | none =>
        rw [hk] at h
        exact absurd h (by simp)
      | some k =>
        rw [hk] at h
        rw [List.all_eq_true] at h
        have hfill : ∀ r ∈ t.rows, fixedBy fillMidnight (getCell r j) = true := by
          intro r hr
          exact (Bool.and_eq_true_iff.mp (h r hr)).1
        have hcons : ∀ r ∈ t.rows,
            getCell r k = combineCell (getCell r i) (getCell r j) := by
          intro r hr
          have := (Bool.and_eq_true_iff.mp (h r hr)).2
          simpa using this
        have ht1 : mapCol t "transaction_time" fillMidnight = t := by
          refine mapCol_id ?_
          refine colAll_of_forall ?_
          intro r hr j' hj'
          rw [hj] at hj'
          injection hj' with hjj
          subst hjj
          exact hfill r hr
        rw [ht1]
        unfold setCol
        rw [hk]
        show Table.mk t.header (List.zipWith (fun r v => r.set k v) t.rows
          (t.rows.map (fun r => combineCell (getCell r i) (getCell r j)))) = t
        rw [zipWith_map_self]
        have hrows : t.rows.map
            (fun r => r.set k (combineCell (getCell r i) (getCell r j))) =
              t.rows := by
          refine map_eq_self_of_all ?_
          intro r hr
          rw [← hcons r hr]
          exact set_getCell_self r k
        rw [hrows]

theorem colAll_mapCol_self_rect {t : Table} {c : String} {p : Value → Bool}
    {f : Value → Value} (hRect : RectB t = true)
    (hall : ∀ v, p (f v) = true) :
    colAll (mapCol t c f) c p = true := by
  unfold mapCol
  cases hc : colIdx t.header c with
  | none =>
    unfold colAll
    rw [hc]
  | some i =>
    refine colAll_of_forall ?_
    intro r hr i' hc'
    simp only at hc' hr
    rw [hc] at hc'
    injection hc' with hii
    subst hii
    rcases List.mem_map.mp hr with ⟨r0, hr0, rfl⟩
    have hlen : i < r0.length := by
      rw [rectB_iff.mp hRect r0 hr0]
      exact colIdx_lt_length hc
    rw [getCell_set_self hlen]
    exact hall _

theorem combineStable_establish {t : Table} (hRect : RectB t = true) :
    combineStableB (combineDatetimeT t) = true := by
  unfold combineDatetimeT
  cases hi : colIdx t.header "transaction_date" with
  | none =>
    unfold combineStableB
    rw [hi]
  | some i =>
    cases hj : colIdx t.header "transaction_time" with
    | none =>
      unfold combineStableB
      rw [hi, hj]
    | some j =>
      simp only
      have hth : (mapCol t "transaction_time" fillMidnight).header = t.header :=
        mapCol_header t _ _
      have htr : RectB (mapCol t "transaction_time" fillMidnight) = true :=
        rectB_mapCol hRect
      have hfillfix : colAll (mapCol t "transaction_time" fillMidnight)
          "transaction_time" (fixedBy fillMidnight) = true :=
        colAll_mapCol_self_rect hRect
          (fun v => fixedBy_iff.mpr (fillMidnight_idem v))
      set t1 := mapCol t "transaction_time" fillMidnight with ht1
      set g := fun r => combineCell (getCell r i) (getCell r j) with hg
      have hij : i ≠ j := colIdx_ne (by decide) hi hj
      have hilt : i < t.header.length := colIdx_lt_length hi
      have hjlt : j < t.header.length := colIdx_lt_length hj
      unfold setCol
      cases hk : colIdx t1.header "transaction_datetime" with
      | some k =>
        have hkt : colIdx t.header "transaction_datetime" = some k := by
          rw [← hth]
          exact hk
        have hki : k ≠ i := colIdx_ne (by decide) hkt hi
        have hkj : k ≠ j := colIdx_ne (by decide) hkt hj
        show combineStableB (Table.mk t1.header
          (List.zipWith (fun r v => r.set k v) t1.rows (t1.rows.map g))) = true
        unfold combineStableB
        simp only [hth, hi, hj, hkt]
        rw [zipWith_map_self, List.all_eq_true]
        intro r hr
        rcases List.mem_map.mp hr with ⟨r0, hr0, rfl⟩
        have hr0len : r0.length = t.header.length := by
          rw [← hth]
          exact rectB_iff.mp htr r0 hr0
        have hklen : k < r0.length := by
          rw [hr0len]
          exact colIdx_lt_length hkt
        rw [Bool.and_eq_true_iff]
        constructor
        · rw [getCell_set_ne hkj]
          exact colAll_get hfillfix (by rw [hth]; exact hj) r0 hr0
        · rw [getCell_set_ne hki, getCell_set_ne hkj,
            getCell_set_self hklen]
          simp [hg]
      | none =>
        have hkt : colIdx t.header "transaction_datetime" = none := by
          rw [← hth]
          exact hk
        show combineStableB (Table.mk (t1.header ++ ["transaction_datetime"])
          (List.zipWith (fun r v => r ++ [v]) t1.rows (t1.rows.map g))) = true
        unfold combineStableB
        have hh : (t1.header ++ ["transaction_datetime"]) = t.header ++
            ["transaction_datetime"] := by rw [hth]
        rw [hh]
        have hitd : colIdx (t.header ++ ["transaction_datetime"])
            "transaction_date" = some i := colIdx_append_left hi
        have hjtd : colIdx (t.header ++ ["transaction_datetime"])
            "transaction_time" = some j := colIdx_append_left hj
        have hktd : colIdx (t.header ++ ["transaction_datetime"])
            "transaction_datetime" = some t.header.length :=
          colIdx_append_self hkt
        simp only [hitd, hjtd, hktd]
        rw [zipWith_map_self, List.all_eq_true]
        intro r hr
        rcases List.mem_map.mp hr with ⟨r0, hr0, rfl⟩
        have hr0len : r0.length = t.header.length := by
          rw [← hth]
          exact rectB_iff.mp htr r0 hr0
        have hgi : getCell (r0 ++ [g r0]) i = getCell r0 i := by
          rw [getCell, getCell, List.getD_append _ _ _ _ (by rw [hr0len]; exact hilt)]
        have hgj : getCell (r0 ++ [g r0]) j = getCell r0 j := by
          rw [getCell, getCell, List.getD_append _ _ _ _ (by rw [hr0len]; exact hjlt)]
        have hgk : getCell (r0 ++ [g r0]) t.header.length = g r0 := by
          rw [getCell, ← hr0len, List.getD_append_right _ _ _ _ (le_refl _)]
          simp
        rw [Bool.and_eq_true_iff]
        constructor
        · rw [hgj]
          exact colAll_get hfillfix (by rw [hth]; exact hj) r0 hr0
        · rw [hgi, hgj, hgk]
          simp [hg]

theorem combineStable_mapCol_other {t : Table} {c : String} {f : Value → Value}
    (h1 : c ≠ "transaction_date") (h2 : c ≠ "transaction_time")
    (h3 : c ≠ "transaction_datetime") (h : combineStableB t = true) :
    combineStableB (mapCol t c f) = true := by
  unfold mapCol
  cases hc : colIdx t.header c with
  | none => exact h
  | some m =>
    unfold combineStableB at h ⊢
    simp only
    cases hi : colIdx t.header "transaction_date" with
    | none => rfl
    | some i =>
      cases hj : colIdx t.header "transaction_time" with
      | none => rfl
      | some j =>
        rw [hi, hj] at h
        simp only at h
        cases hk : colIdx t.header "transaction_datetime" with
        | none =>
          rw [hk] at h
          exact absurd h (by simp)
        | some k =>
          rw [hk] at h
          rw [List.all_eq_true] at h
          rw [List.all_eq_true]
          intro r hr
          rcases List.mem_map.mp hr with ⟨r0, hr0, rfl⟩
          have hmi : m ≠ i := colIdx_ne h1 hc hi
          have hmj : m ≠ j := colIdx_ne h2 hc hj
          have hmk : m ≠ k := colIdx_ne h3 hc hk
          rw [getCell_set_ne hmi, getCell_set_ne hmj, getCell_set_ne hmk]
          exact h r0 hr0

theorem combineStable_dropMissingKeyT {t : Table} {key : String}
    (h : combineStableB t = true) :
    combineStableB (dropMissingKeyT key t) = true := by
  unfold dropMissingKeyT
  cases hkey : colIdx t.header key with
  | none => exact h
  | some m =>
    unfold combineStableB at h ⊢
    simp only
    cases hi : colIdx t.header "transaction_date" with
    | none => rfl
    | some i =>
      cases hj : colIdx t.header "transaction_time" with
      | none => rfl
      | some j =>
        rw [hi, hj] at h
        simp only at h
        cases hk : colIdx t.header "transaction_datetime" with
        | none =>
          rw [hk] at h
          exact absurd h (by simp)
        | some k =>
          rw [hk] at h
          rw [List.all_eq_true] at h
          rw [List.all_eq_true]
          intro r hr
          exact h r (List.mem_filter.mp hr).1

theorem allCells_combineDatetimeT {t : Table} {p : Value → Bool}
    (h : allCells t p = true)
    (hfill : ∀ v, p v = true → p (fillMidnight v) = true)
    (hcomb : ∀ dv tv, p (combineCell dv tv) = true) :
    allCells (combineDatetimeT t) p = true := by
  unfold combineDatetimeT
  cases hi : colIdx t.header "transaction_date" with
  | none => exact h
  | some i =>
    cases hj : colIdx t.header "transaction_time" with
    | none => exact h
    | some j =>
      simp only
      refine allCells_setCol (allCells_mapCol h hfill) ?_
      rw [List.all_eq_true]
      intro v hv
      rcases List.mem_map.mp hv with ⟨r, hr, rfl⟩
      exact hcomb _ _

theorem combineStable_foldl_mapCol_other {cs : List String} {t : Table}
    {f : Value → Value}
    (hall : ∀ c ∈ cs, c ≠ "transaction_date" ∧ c ≠ "transaction_time" ∧
      c ≠ "transaction_datetime")
    (h : combineStableB t = true) :
    combineStableB (cs.foldl (fun a c => mapCol a c f) t) = true := by
  induction cs generalizing t with
  | nil => exact h
  | cons c cs ih =>
    rw [List.foldl_cons]
    refine ih (fun c' hc' => hall c' (List.mem_cons_of_mem c hc')) ?_
    rcases hall c (List.mem_cons_self c cs) with ⟨h1, h2, h3⟩
    exact combineStable_mapCol_other h1 h2 h3 h

/-- Definitional expansion of `clean_transactions` as the composition of
its eight rules (shared helper). -/
theorem clean_transactions_def (df : Table) (dateCols numericCols : List String) :
    clean_transactions df dateCols numericCols =
      dropMissingKeyT "customer_id" (upperGeoT (lowerDebitCreditT
        (coerceNumericT numericCols (combineDatetimeT (parseDatesT dateCols
          (stripTableT (dropDuplicatesT df))))))) := rfl

/-! ### C3: idempotence of the Normalizer, corrected -/

/-- C3 counterexample, one concrete input per failing portion of the
claim: (a) transaction rows that become equal only after whitespace
stripping survive the first pass as duplicates, and a second pass removes
one of them; and (b) re-running `clean_kyc_data` on its own output is
never a no-op, because the output carries a fresh integer index (the
position range left behind by the first `reset_index`) and the second
run's unconditional `reset_index` materializes it as a new leading
`index` column. -/
theorem normalizer_not_idempotent_cex :
    (clean_transactions (clean_transactions dupTable ["transaction_date"]
      ["amount_cad"]) ["transaction_date"] ["amount_cad"] ≠
      clean_transactions dupTable ["transaction_date"] ["amount_cad"]) ∧
    (clean_kyc_data "index" [Value.num 0]
      (clean_kyc_data "customer_id" [Value.str "c1"]
        (Table.mk ["sales"] [[Value.num 5]])) ≠
      clean_kyc_data "customer_id" [Value.str "c1"]
        (Table.mk ["sales"] [[Value.num 5]])) := by
  refine ⟨by decide, by decide⟩

/-- C3 (amended): re-running `clean_kyc_data` is not a no-op (its
unconditional `reset_index` adds a column on every run — see the
counterexample), but on a rectangular input whose cleaned output happens
to contain no duplicate full rows, re-running `clean_transactions` (with
its production column roles) on its own output is a no-op: every rule of
the second pass is the identity. -/
theorem clean_transactions_idempotent (t : Table) (hRect : RectB t = true)
    (hnd : (clean_transactions t ["transaction_date"]
      ["amount_cad"]).rows.Nodup) :
    clean_transactions (clean_transactions t ["transaction_date"]
      ["amount_cad"]) ["transaction_date"] ["amount_cad"] =
      clean_transactions t ["transaction_date"] ["amount_cad"] := by
  set t1 := dropDuplicatesT t with ht1
  set t2 := stripTableT t1 with ht2
  set t3 := parseDatesT ["transaction_date"] t2 with ht3
  set t4 := combineDatetimeT t3 with ht4
  set t5 := coerceNumericT ["amount_cad"] t4 with ht5
  set t6 := lowerDebitCreditT t5 with ht6
  set t7 := upperGeoT t6 with ht7
  have hU : clean_transactions t ["transaction_date"] ["amount_cad"] =
      dropMissingKeyT "customer_id" t7 := rfl
  set u := dropMissingKeyT "customer_id" t7 with hu
  rw [hU] at hnd ⊢
  -- rectangularity of every stage
  have hr1 : RectB t1 = true := rectB_dropDuplicatesT hRect
  have hr2 : RectB t2 = true := rectB_stripTableT hr1
  have hr3 : RectB t3 = true := rectB_foldl_mapCol hr2
  have hr4 : RectB t4 = true := rectB_combineDatetimeT hr3
  have hr5 : RectB t5 = true := rectB_foldl_mapCol hr4
  have hr6 : RectB t6 = true := rectB_mapCol hr5
  have hr7 : RectB t7 = true := rectB_foldl_mapCol hr6
  -- S1: every cell of the output is whitespace-stable
  have s1b : allCells t2 (fixedBy stripCell) = true := allCells_stripTableT_self t1
  have s1c : allCells t3 (fixedBy stripCell) = true :=
    allCells_foldl_mapCol s1b
      (fun v _ => fixedBy_iff.mpr (stripCell_fix_toDatetime v))
  have s1d : allCells t4 (fixedBy stripCell) = true :=
    allCells_combineDatetimeT s1c
      (fun v hv => fixedBy_iff.mpr
        (stripCell_fix_fillMidnight (fixedBy_iff.mp hv)))
      (fun dv tv => fixedBy_iff.mpr (stripCell_fix_combineCell dv tv))
  have s1e : allCells t5 (fixedBy stripCell) = true :=
    allCells_foldl_mapCol s1d
      (fun v _ => fixedBy_iff.mpr (stripCell_fix_toNumeric v))
  have s1f : allCells t6 (fixedBy stripCell) = true :=
    allCells_mapCol s1e
      (fun v hv => fixedBy_iff.mpr (stripCell_fix_lowerCell (fixedBy_iff.mp hv)))
  have s1g : allCells t7 (fixedBy stripCell) = true :=
    allCells_foldl_mapCol s1f
      (fun v hv => fixedBy_iff.mpr (stripCell_fix_upperCell (fixedBy_iff.mp hv)))
  have s1 : allCells u (fixedBy stripCell) = true := allCells_dropMissingKeyT s1g
  -- S2: the date column is datetime-stable
  have s2c : colAll t3 "transaction_date" (fixedBy toDatetimeCoerce) = true :=
    colAll_mapCol_self (fun v => fixedBy_iff.mpr (toDatetimeCoerce_idem v))
      (fixedBy_iff.mpr rfl)
  have s2d : colAll t4 "transaction_date" (fixedBy toDatetimeCoerce) = true :=
    colAll_combineDatetimeT (by decide) (by decide) hr3 s2c
  have s2e : colAll t5 "transaction_date" (fixedBy toDatetimeCoerce) = true :=
    colAll_foldl_mapCol_other (by decide) s2d
  have s2f : colAll t6 "transaction_date" (fixedBy toDatetimeCoerce) = true :=
    colAll_mapCol_other (by decide) s2e
  have s2g : colAll t7 "transaction_date" (fixedBy toDatetimeCoerce) = true :=
    colAll_foldl_mapCol_other (by decide) s2f
  have s2 : colAll u "transaction_date" (fixedBy toDatetimeCoerce) = true :=
    colAll_dropMissingKeyT s2g
  -- S3: timestamp synthesis is stable
  have s3d : combineStableB t4 = true := combineStable_establish hr3
  have s3e : combineStableB t5 = true :=
    combineStable_foldl_mapCol_other (by decide) s3d
  have s3f : combineStableB t6 = true :=
    combineStable_mapCol_other (by decide) (by decide) (by decide) s3e
  have s3g : combineStableB t7 = true :=
    combineStable_foldl_mapCol_other (by decide) s3f
  have s3 : combineStableB u = true := combineStable_dropMissingKeyT s3g
  -- S4: the amount column is numeric-stable
  have s4e : colAll t5 "amount_cad" (fixedBy toNumericCoerce) = true :=
    colAll_mapCol_self (fun v => fixedBy_iff.mpr (toNumericCoerce_idem v))
      (fixedBy_iff.mpr rfl)
  have s4f : colAll t6 "amount_cad" (fixedBy toNumericCoerce) = true :=
    colAll_mapCol_other (by decide) s4e
  have s4g : colAll t7 "amount_cad" (fixedBy toNumericCoerce) = true :=
    colAll_foldl_mapCol_other (by decide) s4f
  have s4 : colAll u "amount_cad" (fixedBy toNumericCoerce) = true :=
    colAll_dropMissingKeyT s4g
  -- S5: the debit/credit column is lowercase-stable
  have s5f : colAll t6 "debit_credit" (fixedBy lowerCell) = true :=
    colAll_mapCol_self (fun v => fixedBy_iff.mpr (lowerCell_idem v))
      (fixedBy_iff.mpr rfl)
  have s5g : colAll t7 "debit_credit" (fixedBy lowerCell) = true :=
    colAll_foldl_mapCol_other (by decide) s5f
  have s5 : colAll u "debit_credit" (fixedBy lowerCell) = true :=
    colAll_dropMissingKeyT s5g
  -- S6: geographic columns are uppercase-stable
  have s6c : colAll t7 "country" (fixedBy upperCell) = true :=
    colAll_mapCol_other (by decide) (colAll_mapCol_other (by decide)
      (colAll_mapCol_self (fun v => fixedBy_iff.mpr (upperCell_idem v))
        (fixedBy_iff.mpr rfl)))
  have s6p : colAll t7 "province" (fixedBy upperCell) = true :=
    colAll_mapCol_other (by decide)
      (colAll_mapCol_self (fun v => fixedBy_iff.mpr (upperCell_idem v))
        (fixedBy_iff.mpr rfl))
  have s6y : colAll t7 "city" (fixedBy upperCell) = true :=
    colAll_mapCol_self (fun v => fixedBy_iff.mpr (upperCell_idem v))
      (fixedBy_iff.mpr rfl)
  have s6c' : colAll u "country" (fixedBy upperCell) = true :=
    colAll_dropMissingKeyT s6c
  have s6p' : colAll u "province" (fixedBy upperCell) = true :=
    colAll_dropMissingKeyT s6p
  have s6y' : colAll u "city" (fixedBy upperCell) = true :=
    colAll_dropMissingKeyT s6y
  -- S7: the key column is non-null
  have s7 : colAll u "customer_id" nonNullB = true :=
    colAll_dropMissingKeyT_self t7 "customer_id"
  -- second pass: every rule is the identity on u
  have e1 : dropDuplicatesT u = u := dropDuplicatesT_id hnd
  have e2 : stripTableT u = u := stripTableT_id s1
  have e3 : parseDatesT ["transaction_date"] u = u := by
    refine foldl_mapCol_id ?_
    intro c hc
    rw [List.mem_singleton] at hc
    subst hc
    exact s2
  have e4 : combineDatetimeT u = u := combineDatetimeT_id s3
  have e5 : coerceNumericT ["amount_cad"] u = u := by
    refine foldl_mapCol_id ?_
    intro c hc
    rw [List.mem_singleton] at hc
    subst hc
    exact s4
  have e6 : lowerDebitCreditT u = u := mapCol_id s5
  have e7 : upperGeoT u = u := by
    refine foldl_mapCol_id ?_
    intro c hc
    simp only [List.mem_cons, List.mem_singleton, List.not_mem_nil,
      or_false] at hc
    rcases hc with rfl | rfl | rfl
    · exact s6c'
    · exact s6p'
    · exact s6y'
  have e8 : dropMissingKeyT "customer_id" u = u := dropMissingKeyT_id s7
  calc clean_transactions u ["transaction_date"] ["amount_cad"]
      = dropMissingKeyT "customer_id" (upperGeoT (lowerDebitCreditT
          (coerceNumericT ["amount_cad"] (combineDatetimeT (parseDatesT
            ["transaction_date"] (stripTableT (dropDuplicatesT u))))))) :=
        clean_transactions_def u _ _
    _ = u := by rw [e1, e2, e3, e4, e5, e6, e7, e8]

/-- Witness for C3 on a concrete table whose cleaned output is
duplicate-free. -/
theorem clean_transactions_idempotent_witness :
    clean_transactions (clean_transactions rawTxnTable ["transaction_date"]
      ["amount_cad"]) ["transaction_date"] ["amount_cad"] =
      clean_transactions rawTxnTable ["transaction_date"] ["amount_cad"] :=
  clean_transactions_idempotent rawTxnTable (by decide) (by decide)
